import Mathlib

/-!
Verification of the session-token protocol of `server/app.py`
(login-template backend).

The development shallowly embeds the token codec and session gate:

* Python `str` values are modelled as `List Nat` of Unicode code points;
  Python `bytes` values as `List Nat` of byte values (each `< 256`).
* `json.dumps(obj, separators=(',', ':'))` and `json.loads` are modelled
  for the JSON fragment the protocol exchanges: a top-level object (or a
  top-level atom, as produced by a forged payload) whose member values are
  null, booleans, integers, or strings.  Nested containers and float
  literals are outside the modelled fragment; no claim depends on them.
  `dumps` reproduces CPython's `ensure_ascii` escaping, and `loads`
  reproduces the strict decoder on that fragment (including surrogate-pair
  recombination of `\uXXXX` escapes).
* `hashlib.sha256`, `hmac.new(..., hashlib.sha256)`, and
  `base64.urlsafe_b64encode/b64decode` are implemented concretely over
  byte lists, following FIPS 180-4, RFC 2104 and RFC 4648.
* Fallible Python code is embedded in `Except PyErr` / `Option`: an
  uncaught exception is an `.error`, a caught one is handled exactly where
  the source's `try`/`except` handles it.
-/

/-- Uncaught Python exception classes that the embedded code can raise. -/
inductive PyErr where
  | runtimeError
  | typeError
  | attributeError
deriving DecidableEq, Repr

/-- An atomic JSON value: the member values the session protocol uses. -/
inductive JVal where
  | jnull
  | jbool (b : Bool)
  | jnum (n : Int)
  | jstr (s : List Nat)
deriving DecidableEq, Repr

/-- Members of a JSON object, in Python dict insertion order. -/
abbrev Members := List (List Nat × JVal)

/-- A JSON document of the modelled fragment: a top-level atom or object. -/
inductive Json where
  | atom (v : JVal)
  | obj (ms : Members)
deriving DecidableEq, Repr

/-- Python truthiness of an atomic JSON value (`None`, `False`, `0`, `''`
are falsy). -/
def jvalFalsy : JVal → Bool
  | .jnull => true
  | .jbool b => !b
  | .jnum n => n == 0
  | .jstr s => s.isEmpty

/-- Python truthiness of a decoded JSON document (an empty dict is falsy). -/
def jsonFalsy : Json → Bool
  | .atom v => jvalFalsy v
  | .obj ms => ms.isEmpty

/-- Python `d.get(k)` on a dict rendered as an ordered association list. -/
def dictGet : Members → List Nat → Option JVal
  | [], _ => none
  | (k', v') :: t, k => if k' = k then some v' else dictGet t k

/-- Python `d[k] = v` (and the `{**d, k: v}` merge step): replaces the
value in place when `k` is already present, otherwise appends. -/
def dictSet : Members → List Nat → JVal → Members
  | [], k, v => [(k, v)]
  | (k', v') :: t, k, v => if k' = k then (k, v) :: t else (k', v') :: dictSet t k v

/-- Keys of a dict, in order. -/
def dictKeys (ms : Members) : List (List Nat) := ms.map Prod.fst

/-- Python `str.lower()` restricted to ASCII letters; the admin allow-list
comparison in the source only ever sees e-mail strings, for which this is
the relevant behaviour.  Non-ASCII case mappings are outside the model. -/
def pyLower (s : List Nat) : List Nat :=
  s.map fun c => if 65 ≤ c ∧ c ≤ 90 then c + 32 else c

/-- Decimal digits of a natural number, as ASCII code points: structural
recursion on a fuel bound so the kernel can evaluate it. -/
def natDumpAux : Nat → Nat → List Nat
  | 0, _ => []
  | f + 1, n => if n < 10 then [48 + n] else natDumpAux f (n / 10) ++ [48 + n % 10]

/-- Decimal digits of a natural number, as ASCII code points. -/
def natDump (n : Nat) : List Nat := natDumpAux (n + 1) n

/-- Serialization of a JSON integer, as `json.dumps` renders Python ints. -/
def intDump (n : Int) : List Nat :=
  if n < 0 then 45 :: natDump n.natAbs else natDump n.natAbs

/-- Four lowercase hex digits of `n % 65536`, as used by `\uXXXX` escapes. -/
def hex4 (n : Nat) : List Nat :=
  let d := fun m => if m < 10 then 48 + m else 87 + m
  [d (n / 4096 % 16), d (n / 256 % 16), d (n / 16 % 16), d (n % 16)]

/-- CPython `json` escaping of one character with `ensure_ascii=True`:
printable ASCII other than quote and backslash is literal; the named
short escapes cover the usual control characters; everything else becomes
`\uXXXX`, with a surrogate pair for astral code points. -/
def escapeChar (c : Nat) : List Nat :=
  if c = 34 then [92, 34]
  else if c = 92 then [92, 92]
  else if c = 8 then [92, 98]
  else if c = 12 then [92, 102]
  else if c = 10 then [92, 110]
  else if c = 13 then [92, 114]
  else if c = 9 then [92, 116]
  else if 32 ≤ c ∧ c ≤ 126 then [c]
  else if c ≤ 65535 then 92 :: 117 :: hex4 c
  else (92 :: 117 :: hex4 (55296 + (c - 65536) / 1024)) ++
       (92 :: 117 :: hex4 (56320 + (c - 65536) % 1024))

/-- JSON string literal for `s`: quote, escaped body, quote. -/
def dumpStr (s : List Nat) : List Nat :=
  34 :: (s.flatMap escapeChar) ++ [34]

/-- Serialization of one atomic JSON value. -/
def dumpVal : JVal → List Nat
  | .jnull => [110, 117, 108, 108]
  | .jbool true => [116, 114, 117, 101]
  | .jbool false => [102, 97, 108, 115, 101]
  | .jnum n => intDump n
  | .jstr s => dumpStr s

/-- Serialization of one `key: value` member (colon separator, no spaces,
matching `separators=(',', ':')`). -/
def dumpMember (kv : List Nat × JVal) : List Nat :=
  dumpStr kv.1 ++ 58 :: dumpVal kv.2

/-- Comma-joined serialization of an object body. -/
def dumpMembers : Members → List Nat
  | [] => []
  | [m] => dumpMember m
  | m :: t => dumpMember m ++ 44 :: dumpMembers t

/-- The model of `json.dumps(x, separators=(',', ':'))` on the fragment. -/
def dumps : Json → List Nat
  | .atom v => dumpVal v
  | .obj ms => 123 :: dumpMembers ms ++ [125]

/-- JSON whitespace characters. -/
def isWs (c : Nat) : Bool := c = 32 || c = 9 || c = 10 || c = 13

/-- Skip leading JSON whitespace. -/
def skipWs (s : List Nat) : List Nat := s.dropWhile isWs

/-- ASCII decimal digit test. -/
def isDigitCp (c : Nat) : Bool := 48 ≤ c && c ≤ 57

/-- Value of a hex digit code point, upper or lower case. -/
def hexVal (c : Nat) : Option Nat :=
  if 48 ≤ c ∧ c ≤ 57 then some (c - 48)
  else if 97 ≤ c ∧ c ≤ 102 then some (c - 87)
  else if 65 ≤ c ∧ c ≤ 70 then some (c - 55)
  else none

/-- Read exactly four hex digits, returning their value and the rest. -/
def readHex4 : List Nat → Option (Nat × List Nat)
  | a :: b :: c :: d :: r =>
    match hexVal a, hexVal b, hexVal c, hexVal d with
    | some x, some y, some z, some w => some (4096 * x + 256 * y + 16 * z + w, r)
    | _, _, _, _ => none
  | _ => none

/-- Named short escapes of the JSON grammar (the character after `\`). -/
def shortEscape (e : Nat) : Option Nat :=
  if e = 34 then some 34
  else if e = 92 then some 92
  else if e = 47 then some 47
  else if e = 98 then some 8
  else if e = 102 then some 12
  else if e = 110 then some 10
  else if e = 114 then some 13
  else if e = 116 then some 9
  else none

/-- Body of a JSON string literal after the opening quote, with CPython's
strict decoding: raw control characters are rejected, `\uXXXX` escapes are
decoded, and a high/low surrogate escape pair recombines into one astral
code point (a lone surrogate escape is kept as is).  `fuel` bounds the
recursion; callers pass at least the input length plus one. -/
def readStrBody : Nat → List Nat → Option (List Nat × List Nat)
  | 0, _ => none
  | _ + 1, [] => none
  | f + 1, c :: r =>
    if c = 34 then some ([], r)
    else if c = 92 then
      match r with
      | [] => none
      | e :: r2 =>
        if e = 117 then
          match readHex4 r2 with
          | none => none
          | some (n, r3) =>
            if 55296 ≤ n ∧ n ≤ 56319 then
              match r3 with
              | 92 :: 117 :: r4 =>
                match readHex4 r4 with
                | some (m, r5) =>
                  if 56320 ≤ m ∧ m ≤ 57343 then
                    (readStrBody f r5).map fun p =>
                      ((65536 + (n - 55296) * 1024 + (m - 56320)) :: p.1, p.2)
                  else (readStrBody f r3).map fun p => (n :: p.1, p.2)
                | none => (readStrBody f r3).map fun p => (n :: p.1, p.2)
              | _ => (readStrBody f r3).map fun p => (n :: p.1, p.2)
            else (readStrBody f r3).map fun p => (n :: p.1, p.2)
        else
          match shortEscape e with
          | some x => (readStrBody f r2).map fun p => (x :: p.1, p.2)
          | none => none
    else if c < 32 then none
    else (readStrBody f r).map fun p => (c :: p.1, p.2)

/-- Value of a nonempty ASCII digit string. -/
def digitsVal (ds : List Nat) : Nat :=
  ds.foldl (fun a c => 10 * a + (c - 48)) 0

/-- Read a JSON integer literal: greedy digits, leading zeros rejected as
in the strict CPython decoder.  Float syntax (a following `.` or
exponent) is outside the modelled fragment and is left unconsumed, which
makes the surrounding document ill-formed exactly as a non-number would. -/
def readNat : List Nat → Option (Nat × List Nat) := fun s =>
  let ds := s.takeWhile isDigitCp
  let r := s.dropWhile isDigitCp
  match ds with
  | [] => none
  | [d] => some (d - 48, r)
  | d :: _ :: _ => if d = 48 then none else some (digitsVal ds, r)

/-- Read a JSON integer, with optional leading minus. -/
def readInt : List Nat → Option (Int × List Nat)
  | [] => none
  | c :: r =>
    if c = 45 then (readNat r).map fun p => (-(p.1 : Int), p.2)
    else (readNat (c :: r)).map fun p => ((p.1 : Int), p.2)

/-- Match expected leading characters, returning the remainder. -/
def expectChars : List Nat → List Nat → Option (List Nat)
  | [], s => some s
  | p :: ps, c :: s => if c = p then expectChars ps s else none
  | _ :: _, [] => none

/-- Read one atomic JSON value. -/
def readAtom : List Nat → Option (JVal × List Nat) := fun s =>
  match s with
  | [] => none
  | c :: r =>
    if c = 34 then
      (readStrBody (r.length + 1) r).map fun p => (JVal.jstr p.1, p.2)
    else if c = 110 then
      (expectChars [117, 108, 108] r).map fun r2 => (JVal.jnull, r2)
    else if c = 116 then
      (expectChars [114, 117, 101] r).map fun r2 => (JVal.jbool true, r2)
    else if c = 102 then
      (expectChars [97, 108, 115, 101] r).map fun r2 => (JVal.jbool false, r2)
    else if c = 45 || isDigitCp c then
      (readInt s).map fun p => (JVal.jnum p.1, p.2)
    else none

/-- Read one `"key": value` member. -/
def readMember (s : List Nat) : Option ((List Nat × JVal) × List Nat) :=
  match skipWs s with
  | [] => none
  | c :: r =>
    if c = 34 then
      match readStrBody (r.length + 1) r with
      | some (k, r2) =>
        match skipWs r2 with
        | [] => none
        | c2 :: r3 =>
          if c2 = 58 then (readAtom (skipWs r3)).map fun p => ((k, p.1), p.2)
          else none
      | none => none
    else none

/-- Read the members of a nonempty object body up to the closing brace.
`fuel` bounds the member count; callers pass at least the input length. -/
def readMembers : Nat → List Nat → Option (List (List Nat × JVal) × List Nat)
  | 0, _ => none
  | f + 1, s =>
    match readMember s with
    | none => none
    | some (kv, r) =>
      match skipWs r with
      | [] => none
      | c :: r2 =>
        if c = 44 then (readMembers f r2).map fun p => (kv :: p.1, p.2)
        else if c = 125 then some ([kv], r2)
        else none

/-- Python dict construction from parsed members: later duplicates
overwrite in place, as `dict` insertion does. -/
def buildDict (ms : List (List Nat × JVal)) : Members :=
  ms.foldl (fun d kv => dictSet d kv.1 kv.2) []

/-- Read one JSON document of the fragment. -/
def readValue : List Nat → Option (Json × List Nat)
  | [] => none
  | c :: r =>
    if c = 123 then
      let r1 := skipWs r
      if r1.head? = some 125 then some (Json.obj [], r1.tail)
      else (readMembers (r1.length + 1) r1).map fun p => (Json.obj (buildDict p.1), p.2)
    else (readAtom (c :: r)).map fun p => (Json.atom p.1, p.2)

/-- The model of `json.loads` on the fragment: a failure is the
`json.JSONDecodeError` that `verify_session_token` catches. -/
def loads (s : List Nat) : Option Json :=
  match readValue (skipWs s) with
  | some (j, rest) => if skipWs rest = [] then some j else none
  | none => none

/-- UTF-8 encoding of a code-point sequence (`str.encode('utf-8')`).
Total over `Nat`; faithfulness matters only for Unicode scalar values,
and every proof uses it on ASCII output of `dumps`. -/
def utf8Encode (s : List Nat) : List Nat :=
  s.flatMap fun c =>
    if c < 128 then [c]
    else if c < 2048 then [192 + c / 64, 128 + c % 64]
    else if c < 65536 then [224 + c / 4096, 128 + c / 64 % 64, 128 + c % 64]
    else [240 + c / 262144, 128 + c / 4096 % 64, 128 + c / 64 % 64, 128 + c % 64]

/-- Strict UTF-8 decoding (`bytes.decode('utf-8')`): rejects truncated and
overlong sequences, surrogates, and values above U+10FFFF, returning
`none` where CPython raises `UnicodeDecodeError`.  `fuel` bounds the
recursion; callers pass the input length plus one. -/
def utf8DecodeFuel : Nat → List Nat → Option (List Nat)
  | 0, _ => none
  | _ + 1, [] => some []
  | f + 1, b :: r =>
    if b < 128 then (utf8DecodeFuel f r).map fun s => b :: s
    else if 194 ≤ b ∧ b ≤ 223 then
      match r with
      | b2 :: r2 =>
        if 128 ≤ b2 ∧ b2 ≤ 191 then
          (utf8DecodeFuel f r2).map fun s => ((b - 192) * 64 + (b2 - 128)) :: s
        else none
      | _ => none
    else if 224 ≤ b ∧ b ≤ 239 then
      match r with
      | b2 :: b3 :: r2 =>
        let lo2 := if b = 224 then 160 else 128
        let hi2 := if b = 237 then 159 else 191
        if (lo2 ≤ b2 ∧ b2 ≤ hi2) ∧ (128 ≤ b3 ∧ b3 ≤ 191) then
          (utf8DecodeFuel f r2).map fun s =>
            ((b - 224) * 4096 + (b2 - 128) * 64 + (b3 - 128)) :: s
        else none
      | _ => none
    else if 240 ≤ b ∧ b ≤ 244 then
      match r with
      | b2 :: b3 :: b4 :: r2 =>
        let lo2 := if b = 240 then 144 else 128
        let hi2 := if b = 244 then 143 else 191
        if (lo2 ≤ b2 ∧ b2 ≤ hi2) ∧ (128 ≤ b3 ∧ b3 ≤ 191) ∧ (128 ≤ b4 ∧ b4 ≤ 191) then
          (utf8DecodeFuel f r2).map fun s =>
            ((b - 240) * 262144 + (b2 - 128) * 4096 + (b3 - 128) * 64 + (b4 - 128)) :: s
        else none
      | _ => none
    else none

/-- The model of `bytes.decode('utf-8')`. -/
def utf8Decode (bs : List Nat) : Option (List Nat) :=
  utf8DecodeFuel (bs.length + 1) bs

/-- The URL-safe base64 alphabet of RFC 4648 section 5, in index order:
uppercase, lowercase, digits, minus, underscore. -/
def b64Alphabet : List Nat :=
  [65, 66, 67, 68, 69, 70, 71, 72, 73, 74, 75, 76, 77, 78, 79, 80, 81, 82,
   83, 84, 85, 86, 87, 88, 89, 90,
   97, 98, 99, 100, 101, 102, 103, 104, 105, 106, 107, 108, 109, 110, 111,
   112, 113, 114, 115, 116, 117, 118, 119, 120, 121, 122,
   48, 49, 50, 51, 52, 53, 54, 55, 56, 57, 45, 95]

/-- Character for a sextet value. -/
def b64Char (n : Nat) : Nat := b64Alphabet.getD (n % 64) 65

/-- Sextet value of an alphabet character (accepting both the URL-safe and
the standard alphabet, as `urlsafe_b64decode`'s translate-then-decode
composition does). -/
def b64Val (c : Nat) : Option Nat :=
  if 65 ≤ c ∧ c ≤ 90 then some (c - 65)
  else if 97 ≤ c ∧ c ≤ 122 then some (c - 71)
  else if 48 ≤ c ∧ c ≤ 57 then some (c + 4)
  else if c = 45 ∨ c = 43 then some 62
  else if c = 95 ∨ c = 47 then some 63
  else none

/-- Membership in the decoder's accepted alphabet. -/
def isB64Char (c : Nat) : Bool := (b64Val c).isSome

/-- Unpadded URL-safe base64 of a byte list: the composition
`base64.urlsafe_b64encode(raw).decode('utf-8').rstrip('=')` of
`base64url_encode` in the source, producing the token's segments. -/
def base64url_encode : List Nat → List Nat
  | a :: b :: c :: t =>
    b64Char (a / 4) :: b64Char (a % 4 * 16 + b / 16) ::
    b64Char (b % 16 * 4 + c / 64) :: b64Char (c % 64) :: base64url_encode t
  | [a, b] => [b64Char (a / 4), b64Char (a % 4 * 16 + b / 16), b64Char (b % 16 * 4)]
  | [a] => [b64Char (a / 4), b64Char (a % 4 * 16)]
  | [] => []

/-- Quad-at-a-time base64 decoding after invalid characters have been
discarded: `==`/`=` may close the final quad, anything shorter than a
quad is the `binascii` padding error. -/
def b64DecodeQuads : List Nat → Option (List Nat)
  | [] => some []
  | a :: b :: c :: d :: r =>
    match b64Val a, b64Val b with
    | some va, some vb =>
      if c = 61 then
        if d = 61 ∧ r = [] then some [va * 4 + vb / 16] else none
      else
        match b64Val c with
        | some vc =>
          if d = 61 then
            if r = [] then some [va * 4 + vb / 16, vb % 16 * 16 + vc / 4] else none
          else
            match b64Val d with
            | some vd =>
              (b64DecodeQuads r).map fun t =>
                (va * 4 + vb / 16) :: (vb % 16 * 16 + vc / 4) :: (vc % 4 * 64 + vd) :: t
            | none => none
        | none => none
    | _, _ => none
  | _ => none

/-- The model of `base64.urlsafe_b64decode`: discard characters outside
the accepted alphabets (CPython's `validate=False` default), then decode
quads, failing on a length that is not a multiple of four. -/
def urlsafe_b64decode (s : List Nat) : Option (List Nat) :=
  b64DecodeQuads (s.filter fun c => isB64Char c || c = 61)

/-- The source's `base64url_decode_bytes`: re-add `=` padding computed
from the raw segment length, then `urlsafe_b64decode`. -/
def base64url_decode_bytes (value : List Nat) : Option (List Nat) :=
  urlsafe_b64decode (value ++ List.replicate ((4 - value.length % 4) % 4) 61)

/-- Python `str.split(sep)` for a one-character separator. -/
def splitOn1 (sep : Nat) : List Nat → List (List Nat)
  | [] => [[]]
  | c :: t =>
    let r := splitOn1 sep t
    if c = sep then [] :: r
    else match r with
      | h :: t' => (c :: h) :: t'
      | [] => [[c]]

/-- Modulus for 32-bit words. -/
def M32 : Nat := 4294967296

/-- Right rotation of a 32-bit word. -/
def rotr (n x : Nat) : Nat := ((x >>> n) ||| (x <<< (32 - n))) % M32

/-- SHA-256 round constants (FIPS 180-4 section 4.2.2). -/
def shaK : List Nat :=
  [1116352408, 1899447441, 3049323471, 3921009573, 961987163,
   1508970993, 2453635748, 2870763221, 3624381080, 310598401,
   607225278, 1426881987, 1925078388, 2162078206, 2614888103,
   3248222580, 3835390401, 4022224774, 264347078, 604807628,
   770255983, 1249150122, 1555081692, 1996064986, 2554220882,
   2821834349, 2952996808, 3210313671, 3336571891, 3584528711,
   113926993, 338241895, 666307205, 773529912, 1294757372,
   1396182291, 1695183700, 1986661051, 2177026350, 2456956037,
   2730485921, 2820302411, 3259730800, 3345764771, 3516065817,
   3600352804, 4094571909, 275423344, 430227734, 506948616,
   659060556, 883997877, 958139571, 1322822218, 1537002063,
   1747873779, 1955562222, 2024104815, 2227730452, 2361852424,
   2428436474, 2756734187, 3204031479, 3329325298]

/-- SHA-256 initial hash value (FIPS 180-4 section 5.3.3). -/
def shaH0 : List Nat :=
  [1779033703, 3144134277, 1013904242, 2773480762,
   1359893119, 2600822924, 528734635, 1541459225]

/-- Big-endian 32-bit words of a byte list (length a multiple of four). -/
def bytesToWords : List Nat → List Nat
  | a :: b :: c :: d :: r => (a * 16777216 + b * 65536 + c * 256 + d) :: bytesToWords r
  | _ => []

/-- Split a word list into 16-word blocks (fuel-bounded structural
recursion; the fuel is the list length, ample since every step consumes
at least one element). -/
def toBlocksAux : Nat → List Nat → List (List Nat)
  | 0, _ => []
  | _ + 1, [] => []
  | f + 1, ws => ws.take 16 :: toBlocksAux f (ws.drop 16)

/-- Split a word list into 16-word blocks. -/
def toBlocks (ws : List Nat) : List (List Nat) := toBlocksAux ws.length ws

/-- Message-schedule extension: append `n` further words to `w`. -/
def extendW : List Nat → Nat → List Nat
  | w, 0 => w
  | w, n + 1 =>
    let l := w.length
    let s0 :=
      let x := w.getD (l - 15) 0
      rotr 7 x ^^^ rotr 18 x ^^^ (x >>> 3)
    let s1 :=
      let x := w.getD (l - 2) 0
      rotr 17 x ^^^ rotr 19 x ^^^ (x >>> 10)
    extendW (w ++ [(s1 + w.getD (l - 7) 0 + s0 + w.getD (l - 16) 0) % M32]) n

/-- One SHA-256 round on the eight-word state; `kw` is the sum of the
round constant and the schedule word. -/
def shaRound (st : List Nat) (kw : Nat) : List Nat :=
  match st with
  | [a, b, c, d, e, f, g, h] =>
    let s1 := rotr 6 e ^^^ rotr 11 e ^^^ rotr 25 e
    let ch := (e &&& f) ^^^ ((4294967295 ^^^ e) &&& g)
    let t1 := (h + s1 + ch + kw) % M32
    let s0 := rotr 2 a ^^^ rotr 13 a ^^^ rotr 22 a
    let mj := (a &&& b) ^^^ (a &&& c) ^^^ (b &&& c)
    let t2 := (s0 + mj) % M32
    [(t1 + t2) % M32, a, b, c, (d + t1) % M32, e, f, g]
  | _ => st

/-- SHA-256 compression of one 16-word block into the running hash. -/
def compressBlock (h : List Nat) (block : List Nat) : List Nat :=
  let w := extendW block 48
  let kw := List.zipWith (fun k wi => (k + wi) % M32) shaK w
  let st := kw.foldl shaRound h
  List.zipWith (fun x y => (x + y) % M32) h st

/-- SHA-256 of a byte list, as a 32-entry byte list (`hashlib.sha256`). -/
def sha256 (msg : List Nat) : List Nat :=
  let bitLen := msg.length * 8
  let lenBytes :=
    [bitLen / 72057594037927936 % 256, bitLen / 281474976710656 % 256,
     bitLen / 1099511627776 % 256, bitLen / 4294967296 % 256,
     bitLen / 16777216 % 256, bitLen / 65536 % 256, bitLen / 256 % 256,
     bitLen % 256]
  let padded :=
    msg ++ 128 :: List.replicate ((64 - (msg.length + 9) % 64) % 64) 0 ++ lenBytes
  let hh := (toBlocks (bytesToWords padded)).foldl compressBlock shaH0
  hh.flatMap fun w => [w / 16777216 % 256, w / 65536 % 256, w / 256 % 256, w % 256]

/-- The HMAC key block: a key longer than the 64-byte SHA-256 block is
hashed first, then the result is zero-padded to 64 bytes (RFC 2104, as
`hmac.new` does).  Distinct keys can share a block: a key and the same
key extended with trailing zero bytes pad identically. -/
def hmacBlockKey (key : List Nat) : List Nat :=
  let k0 := if 64 < key.length then sha256 key else key
  k0 ++ List.replicate (64 - k0.length) 0

/-- `hmac.new(key, msg, hashlib.sha256).digest()`. -/
def hmacSha256 (key msg : List Nat) : List Nat :=
  let kb := hmacBlockKey key
  sha256 ((kb.map fun b => b ^^^ 92) ++ sha256 ((kb.map fun b => b ^^^ 54) ++ msg))

/-- `hmac.compare_digest`: equality of the two digests (the source uses
it for its constant-time execution, which has no observable counterpart
in a pure embedding). -/
def compare_digest (a b : List Nat) : Bool := a == b

/-- The fixed issuer constant `SESSION_ISSUER = 'logintemplate'`. -/
def SESSION_ISSUER : List Nat :=
  [108, 111, 103, 105, 110, 116, 101, 109, 112, 108, 97, 116, 101]

/-- The payload key `'iss'`. -/
def issKey : List Nat := [105, 115, 115]

/-- The payload key `'exp'`. -/
def expKey : List Nat := [101, 120, 112]

/-- The payload key `'email'`. -/
def emailKey : List Nat := [101, 109, 97, 105, 108]

/-- The merged payload `{**payload, 'iss': SESSION_ISSUER, 'exp': exp}` of
`create_session_token`: the fixed issuer and the computed expiry always
overwrite caller-supplied values. -/
def session_payload (payload : Members) (exp : Int) : Members :=
  dictSet (dictSet payload issKey (.jstr SESSION_ISSUER)) expKey (.jnum exp)

/-- Lines 106-110 of the source applied to serialized body text: sign the
UTF-8 bytes with HMAC-SHA-256 under `secret` and join the unpadded
URL-safe base64 of body and signature with `'.'` (46).  `secret` is the
UTF-8 byte encoding of `SESSION_SECRET`.  This is also the construction
the spec describes for forging test tokens: signing chosen payload bytes
with the correct secret. -/
def signed_token_of (secret body : List Nat) : List Nat :=
  base64url_encode (utf8Encode body) ++
    46 :: base64url_encode (hmacSha256 secret (utf8Encode body))

/-- `create_session_token(payload)`.  The module globals and the clock
become parameters: `secret` is `SESSION_SECRET` as UTF-8 bytes (`[]` for
unset or empty, both falsy), `maxAgeMs` is `SESSION_MAX_AGE_MS`, and
`nowMs` is `int(time.time() * 1000)`.  An empty secret raises
`RuntimeError` (the configuration error); otherwise the merged payload is
serialized, signed and encoded. -/
def create_session_token (secret : List Nat) (maxAgeMs nowMs : Int)
    (payload : Members) : Except PyErr (List Nat) :=
  if secret = [] then .error .runtimeError
  else
    .ok (signed_token_of secret (dumps (.obj (session_payload payload (nowMs + maxAgeMs)))))

/-- Lines 130-138 of `verify_session_token`, from `json.loads(body)` on:
a parse failure is the caught `JSONDecodeError`; `parsed.get('iss')` on a
non-dict raises `AttributeError`; a truthy non-numeric `exp` raises
`TypeError` at `parsed['exp'] < int(time.time() * 1000)` (Python `True`
compares as 1). -/
def checkParsed (nowMs : Int) (parsedOpt : Option Json) : Except PyErr (Option Json) :=
  match parsedOpt with
  | none => .ok none
  | some (.atom _) => .error .attributeError
  | some (.obj d) =>
    if dictGet d issKey ≠ some (.jstr SESSION_ISSUER) then .ok none
    else
      match dictGet d expKey with
      | none => .ok none
      | some ev =>
        if jvalFalsy ev then .ok none
        else
          match ev with
          | .jnum e => if e < nowMs then .ok none else .ok (some (.obj d))
          | .jbool _ => if (1 : Int) < nowMs then .ok none else .ok (some (.obj d))
          | _ => .error .typeError

/-- Lines 125-138 of `verify_session_token`: recompute the keyed digest
over the decoded body bytes, compare with `hmac.compare_digest`, then
parse and check issuer and expiry. -/
def verifyDecoded (secret : List Nat) (nowMs : Int) (body signature : List Nat) :
    Except PyErr (Option Json) :=
  let expected_sig := hmacSha256 secret (utf8Encode body)
  if ¬ compare_digest expected_sig signature then .ok none
  else checkParsed nowMs (loads body)

/-- `verify_session_token(token)`: empty token or unset secret, a split
into anything but two parts, or a caught decode failure all return
`None`; otherwise the signature, issuer and expiry checks run.  Returns
`.ok (some claims)`, `.ok none`, or an uncaught exception. -/
def verify_session_token (secret : List Nat) (nowMs : Int) (token : List Nat) :
    Except PyErr (Option Json) :=
  if token = [] ∨ secret = [] then .ok none
  else
    match splitOn1 46 token with
    | [body_part, sig_part] =>
      match
        (do
          let bodyBytes ← base64url_decode_bytes body_part
          let body ← utf8Decode bodyBytes
          let signature ← base64url_decode_bytes sig_part
          pure (body, signature) : Option (List Nat × List Nat)) with
      | none => .ok none
      | some (body, signature) => verifyDecoded secret nowMs body signature
    | _ => .ok none

/-- `get_session_from_request()`: read the session cookie (a missing
cookie is the empty, falsy token) and verify it. -/
def get_session_from_request (secret : List Nat) (nowMs : Int)
    (cookie : List Nat) : Except PyErr (Option Json) :=
  verify_session_token secret nowMs cookie

/-- Result of a guarded route: either the 401 `Authentication required`
response issued before the handler runs, or the handler's own response. -/
inductive AuthResult (α : Type) where
  | unauthenticated
  | handled (a : α)
deriving DecidableEq, Repr

/-- The `require_auth` decorator: on a falsy session, the 401 response;
otherwise the session is stored in `g.user` and passed to the wrapped
handler. -/
def require_auth {α : Type} (fn : Json → α) (secret : List Nat) (nowMs : Int)
    (cookie : List Nat) : Except PyErr (AuthResult α) :=
  match get_session_from_request secret nowMs cookie with
  | .error e => .error e
  | .ok none => .ok .unauthenticated
  | .ok (some session) =>
    if jsonFalsy session then .ok .unauthenticated
    else .ok (.handled (fn session))

/-- `is_admin(session)`: falsy session or missing/falsy email or empty
allow-list give `False`; otherwise the lowercased email is tested against
the lowercased allow-list.  `session.get` on a truthy non-dict and
`email.lower()` on a truthy non-string raise `AttributeError`.
`adminEmails` is the `ADMIN_EMAILS` set as a list of strings. -/
def is_admin (adminEmails : List (List Nat)) (session : Option Json) :
    Except PyErr Bool :=
  match session with
  | none => .ok false
  | some s =>
    if jsonFalsy s then .ok false
    else
      match s with
      | .atom _ => .error .attributeError
      | .obj d =>
        match dictGet d emailKey with
        | none => .ok false
        | some ev =>
          if jvalFalsy ev then .ok false
          else if adminEmails = [] then .ok false
          else
            match ev with
            | .jstr email =>
              .ok (decide (pyLower email ∈ adminEmails.map pyLower))
            | _ => .error .attributeError

/-- All code points are ASCII. -/
def asciiStr (s : List Nat) : Bool := s.all (fun c => decide (c < 128))

/-- A Unicode scalar value: what a well-formed Python `str` element
decoded from UTF-8 can be (below U+110000 and not a surrogate). -/
def scalarCp (c : Nat) : Bool :=
  decide (c < 1114112) && !(decide (55296 ≤ c) && decide (c ≤ 57343))

/-- All code points are Unicode scalar values. -/
def scalarStr (s : List Nat) : Bool := s.all scalarCp

/-- An atomic value whose strings are scalar. -/
def jvalCanon : JVal → Bool
  | .jstr s => scalarStr s
  | _ => true

/-- A payload dict as Python produces it: scalar keys and string values,
and no duplicate keys (a Python dict cannot hold duplicates). -/
def membersCanon (ms : Members) : Bool :=
  ms.all (fun kv => scalarStr kv.1 && jvalCanon kv.2) && decide (dictKeys ms).Nodup

/-- A document as Python serializes it: canonical members or atom. -/
def jsonCanon : Json → Bool
  | .atom v => jvalCanon v
  | .obj ms => membersCanon ms

/-- Lookup in the empty dict. -/
theorem dictGet_nil (k : List Nat) : dictGet [] k = none := rfl

/-- A successful lookup needs a nonempty dict. -/
theorem dictGet_ne_nil {d : Members} {k : List Nat} {v : JVal}
    (h : dictGet d k = some v) : d ≠ [] := by
  intro he
  subst he
  simp [dictGet] at h

/-- Setting then reading the same key. -/
theorem dictGet_dictSet_self (d : Members) (k : List Nat) (v : JVal) :
    dictGet (dictSet d k v) k = some v := by
  induction d with
  | nil => simp [dictSet, dictGet]
  | cons kv t ih =>
    by_cases h : kv.1 = k
    · simp [dictSet, h, dictGet]
    · simp [dictSet, h, dictGet, ih]

/-- Setting one key leaves other keys' lookups unchanged. -/
theorem dictGet_dictSet_ne (d : Members) (k k' : List Nat) (v : JVal)
    (h : k' ≠ k) : dictGet (dictSet d k v) k' = dictGet d k' := by
  induction d with
  | nil => simp only [dictSet, dictGet, if_neg (Ne.symm h)]
  | cons kv t ih =>
    obtain ⟨k1, v1⟩ := kv
    by_cases hk : k1 = k
    · subst hk
      simp only [dictSet, if_pos rfl, dictGet, if_neg (Ne.symm h)]
    · simp only [dictSet, if_neg hk, dictGet, ih]

/-- Membership in a dict after `dictSet`. -/
theorem mem_dictSet {kv' : List Nat × JVal} {d : Members} {k : List Nat}
    {v : JVal} (h : kv' ∈ dictSet d k v) : kv' ∈ d ∨ kv' = (k, v) := by
  induction d with
  | nil =>
    simp only [dictSet, List.mem_singleton] at h
    exact Or.inr h
  | cons kv t ih =>
    obtain ⟨k1, v1⟩ := kv
    by_cases hk : k1 = k
    · subst hk
      rcases List.mem_cons.mp (by simpa only [dictSet, if_pos rfl] using h) with h1 | h1
      · exact Or.inr h1
      · exact Or.inl (List.mem_cons_of_mem _ h1)
    · rcases List.mem_cons.mp (by simpa only [dictSet, if_neg hk] using h) with h1 | h1
      · exact Or.inl (by rw [h1]; exact List.mem_cons_self _ _)
      · rcases ih h1 with h2 | h2
        · exact Or.inl (List.mem_cons_of_mem _ h2)
        · exact Or.inr h2

/-- Key membership in a dict after `dictSet`. -/
theorem mem_dictKeys_dictSet {x : List Nat} {d : Members} {k : List Nat}
    {v : JVal} (h : x ∈ dictKeys (dictSet d k v)) : x ∈ dictKeys d ∨ x = k := by
  simp only [dictKeys, List.mem_map] at h ⊢
  obtain ⟨kv', hm, he⟩ := h
  rcases mem_dictSet hm with h' | h'
  · left; exact ⟨kv', h', he⟩
  · right; rw [← he, h']

/-- `dictSet` preserves key nodup-ness. -/
theorem dictKeys_dictSet_nodup {d : Members} (k : List Nat) (v : JVal)
    (h : (dictKeys d).Nodup) : (dictKeys (dictSet d k v)).Nodup := by
  induction d with
  | nil => simp [dictSet, dictKeys]
  | cons kv t ih =>
    obtain ⟨k1, v1⟩ := kv
    have hcons := List.nodup_cons.mp (by simpa only [dictKeys, List.map_cons] using h)
    by_cases hk : k1 = k
    · subst hk
      have hset : dictSet ((k1, v1) :: t) k1 v = (k1, v) :: t := by
        simp [dictSet]
      rw [hset]
      simpa only [dictKeys, List.map_cons, List.nodup_cons] using hcons
    · simp only [dictSet, if_neg hk, dictKeys, List.map_cons, List.nodup_cons]
      refine ⟨?_, ih hcons.2⟩
      intro hm
      rcases mem_dictKeys_dictSet (show k1 ∈ dictKeys (dictSet t k v) from hm) with h' | h'
      · exact hcons.1 h'
      · exact hk h'

/-- Appending a fresh key is `dictSet` on an absent key. -/
theorem dictSet_absent (d : Members) (k : List Nat) (v : JVal)
    (h : k ∉ dictKeys d) : dictSet d k v = d ++ [(k, v)] := by
  induction d with
  | nil => simp [dictSet]
  | cons kv t ih =>
    have h1 : kv.1 ≠ k := by
      intro he
      exact h (by simp [dictKeys, he])
    have h2 : k ∉ dictKeys t := by
      intro hm
      apply h
      simp only [dictKeys, List.map_cons, List.mem_cons]
      right
      simpa [dictKeys] using hm
    simp [dictSet, h1, ih h2]

/-- Rebuilding a nodup-keyed member list as a Python dict is the
identity: every insertion appends. -/
theorem buildDict_nodup (ms : Members) (h : (dictKeys ms).Nodup) :
    buildDict ms = ms := by
  suffices hgen : ∀ (l : Members) (acc : Members), (dictKeys (acc ++ l)).Nodup →
      l.foldl (fun d kv => dictSet d kv.1 kv.2) acc = acc ++ l by
    simpa [buildDict] using hgen ms [] (by simpa using h)
  intro l
  induction l with
  | nil => intro acc _; simp
  | cons kv t ih =>
    intro acc hnd
    obtain ⟨k1, v1⟩ := kv
    have hsplit := List.nodup_append.mp (by
      simpa only [dictKeys, List.map_append] using hnd)
    have hk : k1 ∉ dictKeys acc := by
      intro hm
      exact hsplit.2.2 hm (by simp [dictKeys])
    simp only [List.foldl_cons]
    rw [dictSet_absent acc k1 v1 hk]
    rw [ih (acc ++ [(k1, v1)]) (by
      simpa only [List.append_assoc, List.singleton_append] using hnd)]
    simp

/-- `takeWhile` over an append whose left part satisfies the predicate. -/
theorem takeWhile_append_all {p : Nat → Bool} :
    ∀ (l l' : List Nat), (∀ a ∈ l, p a = true) →
      (l ++ l').takeWhile p = l ++ l'.takeWhile p := by
  intro l l' h
  induction l with
  | nil => simp
  | cons a t ih =>
    have ha : p a = true := h a (by simp)
    rw [List.cons_append, List.takeWhile_cons, if_pos ha,
      ih (fun b hb => h b (by simp [hb]))]
    simp

/-- `dropWhile` over an append whose left part satisfies the predicate. -/
theorem dropWhile_append_all {p : Nat → Bool} :
    ∀ (l l' : List Nat), (∀ a ∈ l, p a = true) →
      (l ++ l').dropWhile p = l'.dropWhile p := by
  intro l l' h
  induction l with
  | nil => simp
  | cons a t ih =>
    have ha : p a = true := h a (by simp)
    rw [List.cons_append, List.dropWhile_cons, if_pos ha]
    exact ih (fun b hb => h b (by simp [hb]))

/-- Every character `natDumpAux` emits is an ASCII digit. -/
theorem natDumpAux_digits : ∀ (f n : Nat), n < f →
    ∀ c ∈ natDumpAux f n, 48 ≤ c ∧ c ≤ 57 := by
  intro f
  induction f with
  | zero => omega
  | succ f ih =>
    intro n hn c hc
    by_cases h10 : n < 10
    · simp [natDumpAux, h10] at hc
      omega
    · simp only [natDumpAux, if_neg h10, List.mem_append, List.mem_singleton] at hc
      rcases hc with hc | hc
      · exact ih (n / 10) (by omega) c hc
      · have := Nat.mod_lt n (show 0 < 10 by omega)
        omega

/-- `natDumpAux` output is nonempty. -/
theorem natDumpAux_ne_nil (f n : Nat) (h : n < f) : natDumpAux f n ≠ [] := by
  cases f with
  | zero => omega
  | succ f =>
    by_cases h10 : n < 10
    · simp [natDumpAux, h10]
    · simp [natDumpAux, h10]

/-- Appending one digit multiplies the accumulated value by ten. -/
theorem digitsVal_append_digit (xs : List Nat) (d : Nat) :
    digitsVal (xs ++ [d]) = 10 * digitsVal xs + (d - 48) := by
  simp [digitsVal, List.foldl_append]

/-- `natDumpAux` followed by `digitsVal` is the identity. -/
theorem digitsVal_natDumpAux : ∀ (f n : Nat), n < f →
    digitsVal (natDumpAux f n) = n := by
  intro f
  induction f with
  | zero => omega
  | succ f ih =>
    intro n hn
    by_cases h10 : n < 10
    · simp [natDumpAux, h10, digitsVal]
    · simp only [natDumpAux, if_neg h10]
      rw [digitsVal_append_digit, ih (n / 10) (by omega)]
      omega

/-- A positive number's decimal rendering starts with a nonzero digit. -/
theorem natDumpAux_head : ∀ (f n : Nat), n < f → 0 < n →
    ∃ d t, natDumpAux f n = d :: t ∧ d ≠ 48 := by
  intro f
  induction f with
  | zero => omega
  | succ f ih =>
    intro n hn hpos
    by_cases h10 : n < 10
    · exact ⟨48 + n, [], by simp [natDumpAux, h10], by omega⟩
    · obtain ⟨d, t, he, hd⟩ := ih (n / 10) (by omega) (by omega)
      exact ⟨d, t ++ [48 + n % 10], by simp [natDumpAux, h10, he], hd⟩

/-- `readNat` recovers what `natDump` wrote, leaving a non-digit rest. -/
theorem readNat_natDump (m : Nat) (rest : List Nat)
    (hrest : ∀ c ∈ rest.head?, isDigitCp c = false) :
    readNat (natDump m ++ rest) = some (m, rest) := by
  have hdig : ∀ c ∈ natDump m, isDigitCp c = true := by
    intro c hc
    have := natDumpAux_digits (m + 1) m (by omega) c hc
    simp [isDigitCp]
    omega
  have htw : (natDump m ++ rest).takeWhile isDigitCp = natDump m := by
    rw [takeWhile_append_all _ _ hdig]
    cases rest with
    | nil => simp
    | cons h t =>
      have := hrest h (by simp)
      simp [List.takeWhile_cons, this]
  have hdw : (natDump m ++ rest).dropWhile isDigitCp = rest := by
    rw [dropWhile_append_all _ _ hdig]
    cases rest with
    | nil => simp
    | cons h t =>
      have := hrest h (by simp)
      simp [List.dropWhile_cons, this]
  by_cases h10 : m < 10
  · have he : natDump m = [48 + m] := by simp [natDump, natDumpAux, h10]
    simp only [readNat]
    rw [htw, hdw, he]
    simp
  · obtain ⟨d, t, he, hd⟩ := natDumpAux_head (m + 1) m (by omega) (by omega)
    have hne : t ≠ [] := by
      intro ht
      subst ht
      have hv := digitsVal_natDumpAux (m + 1) m (by omega)
      rw [he] at hv
      simp [digitsVal] at hv
      have hd9 := natDumpAux_digits (m + 1) m (by omega) d (by rw [he]; simp)
      omega
    obtain ⟨b, t', ht⟩ := List.exists_cons_of_ne_nil hne
    subst ht
    have hnd : natDump m = d :: b :: t' := by simp [natDump, he]
    have hv : digitsVal (natDump m) = m := digitsVal_natDumpAux (m + 1) m (by omega)
    simp only [readNat]
    rw [htw, hdw, hnd]
    simp only [if_neg hd]
    rw [← hnd, hv]

/-- The decimal rendering starts with a digit. -/
theorem natDump_head_digit (m : Nat) :
    ∃ d t, natDump m = d :: t ∧ 48 ≤ d ∧ d ≤ 57 := by
  have hne := natDumpAux_ne_nil (m + 1) m (by omega)
  obtain ⟨d, t, ht⟩ := List.exists_cons_of_ne_nil hne
  refine ⟨d, t, by simp [natDump, ht], ?_⟩
  exact natDumpAux_digits (m + 1) m (by omega) d (by rw [ht]; simp)

/-- `readInt` recovers what `intDump` wrote, leaving a non-digit rest. -/
theorem readInt_intDump (n : Int) (rest : List Nat)
    (hrest : ∀ c ∈ rest.head?, isDigitCp c = false) :
    readInt (intDump n ++ rest) = some (n, rest) := by
  by_cases hneg : n < 0
  · simp only [intDump, if_pos hneg, List.cons_append, readInt, if_pos rfl]
    rw [readNat_natDump n.natAbs rest hrest]
    show some (-((n.natAbs : Nat) : Int), rest) = some (n, rest)
    congr 2
    omega
  · obtain ⟨d, t, he, hd1, hd2⟩ := natDump_head_digit n.natAbs
    simp only [intDump, if_neg hneg, he, List.cons_append, readInt,
      if_neg (show d ≠ 45 by omega)]
    rw [← List.cons_append, ← he, readNat_natDump n.natAbs rest hrest]
    show some (((n.natAbs : Nat) : Int), rest) = some (n, rest)
    congr 2
    omega

/-- Matching expected leading characters succeeds on them. -/
theorem expectChars_self : ∀ (p s : List Nat), expectChars p (p ++ s) = some s := by
  intro p
  induction p with
  | nil => intro s; rfl
  | cons c t ih => intro s; simp [expectChars, ih]

/-- A hex digit emitted by `hex4` reads back. -/
theorem hexVal_digit (m : Nat) (h : m < 16) :
    hexVal (if m < 10 then 48 + m else 87 + m) = some m := by
  by_cases h10 : m < 10
  · rw [if_pos h10]
    simp only [hexVal, if_pos (by omega : 48 ≤ 48 + m ∧ 48 + m ≤ 57)]
    congr 1
    omega
  · rw [if_neg h10]
    have h1 : ¬(48 ≤ 87 + m ∧ 87 + m ≤ 57) := by omega
    have h2 : 97 ≤ 87 + m ∧ 87 + m ≤ 102 := by omega
    simp only [hexVal, if_neg h1, if_pos h2]
    congr 1
    omega

/-- `readHex4` recovers what `hex4` wrote. -/
theorem readHex4_hex4 (n : Nat) (rest : List Nat) (h : n < 65536) :
    readHex4 (hex4 n ++ rest) = some (n, rest) := by
  simp only [hex4, List.cons_append, List.nil_append, readHex4]
  rw [hexVal_digit _ (by omega), hexVal_digit _ (by omega),
    hexVal_digit _ (by omega), hexVal_digit _ (by omega)]
  have hrec : 4096 * (n / 4096 % 16) + 256 * (n / 256 % 16) + 16 * (n / 16 % 16) + n % 16 = n := by
    omega
  show some (4096 * (n / 4096 % 16) + 256 * (n / 256 % 16) + 16 * (n / 16 % 16) + n % 16, rest) =
    some (n, rest)
  rw [hrec]

/-- Reader step: a literal (non-quote, non-backslash, non-control)
character is consumed as itself. -/
theorem readStrBody_lit (f : Nat) (c : Nat) (r : List Nat)
    (h34 : c ≠ 34) (h92 : c ≠ 92) (hctl : ¬c < 32) :
    readStrBody (f + 1) (c :: r) =
      (readStrBody f r).map fun p => (c :: p.1, p.2) := by
  simp only [readStrBody, if_neg h34, if_neg h92, if_neg hctl]

/-- Reader step: a short escape is consumed as its named character. -/
theorem readStrBody_short (f : Nat) (e x : Nat) (r2 : List Nat)
    (he : e ≠ 117) (hse : shortEscape e = some x) :
    readStrBody (f + 1) (92 :: e :: r2) =
      (readStrBody f r2).map fun p => (x :: p.1, p.2) := by
  simp [readStrBody, if_neg he, hse]

/-- Reader step: a `\uXXXX` escape outside the high-surrogate range is
consumed as its code point. -/
theorem readStrBody_u_single (f : Nat) (r2 r3 : List Nat) (n : Nat)
    (hr : readHex4 r2 = some (n, r3)) (hn : ¬(55296 ≤ n ∧ n ≤ 56319)) :
    readStrBody (f + 1) (92 :: 117 :: r2) =
      (readStrBody f r3).map fun p => (n :: p.1, p.2) := by
  simp [readStrBody, hr, hn]

/-- Reader step: a high/low surrogate escape pair is consumed as the
recombined astral code point. -/
theorem readStrBody_u_pair (f : Nat) (r2 r4 r5 : List Nat) (n m : Nat)
    (hr1 : readHex4 r2 = some (n, 92 :: 117 :: r4))
    (hn : 55296 ≤ n ∧ n ≤ 56319)
    (hr2 : readHex4 r4 = some (m, r5))
    (hm : 56320 ≤ m ∧ m ≤ 57343) :
    readStrBody (f + 1) (92 :: 117 :: r2) =
      (readStrBody f r5).map fun p =>
        ((65536 + (n - 55296) * 1024 + (m - 56320)) :: p.1, p.2) := by
  simp [readStrBody, hr1, hn, hr2, hm]

/-- The strict string reader inverts CPython's `ensure_ascii` escaping on
scalar strings, consuming the closing quote. -/
theorem readStrBody_escape : ∀ (s : List Nat), scalarStr s = true →
    ∀ (f : Nat) (rest : List Nat), s.length < f →
      readStrBody f (s.flatMap escapeChar ++ 34 :: rest) = some (s, rest) := by
  intro s
  induction s with
  | nil =>
    intro _ f rest hf
    cases f with
    | zero => omega
    | succ f => simp [readStrBody]
  | cons c t ih =>
    intro hs f rest hf
    have hc : scalarCp c = true := by
      simp [scalarStr] at hs
      exact hs.1
    have ht : scalarStr t = true := by
      simp [scalarStr] at hs ⊢
      exact hs.2
    have hcb : c < 1114112 ∧ (c < 55296 ∨ 57343 < c) := by
      simpa [scalarCp, Decidable.not_and_iff_or_not] using hc
    cases f with
    | zero => omega
    | succ f =>
    have hf' : t.length < f := by simpa using hf
    have hih := ih ht f rest hf'
    simp only [List.flatMap_cons, List.append_assoc]
    by_cases h34 : c = 34
    · subst h34
      simp [escapeChar, readStrBody, shortEscape, hih]
    · by_cases h92 : c = 92
      · subst h92
        simp [escapeChar, readStrBody, shortEscape, hih]
      · by_cases h8 : c = 8
        · subst h8
          simp [escapeChar, readStrBody, shortEscape, hih]
        · by_cases h12 : c = 12
          · subst h12
            simp [escapeChar, readStrBody, shortEscape, hih]
          · by_cases h10 : c = 10
            · subst h10
              simp [escapeChar, readStrBody, shortEscape, hih]
            · by_cases h13 : c = 13
              · subst h13
                simp [escapeChar, readStrBody, shortEscape, hih]
              · by_cases h9 : c = 9
                · subst h9
                  simp [escapeChar, readStrBody, shortEscape, hih]
                · by_cases hpr : 32 ≤ c ∧ c ≤ 126
                  · have hesc : escapeChar c = [c] := by
                      simp only [escapeChar]
                      rw [if_neg h34, if_neg h92, if_neg h8, if_neg h12,
                        if_neg h10, if_neg h13, if_neg h9, if_pos hpr]
                    rw [hesc]
                    simp only [List.singleton_append, List.cons_append, List.nil_append]
                    rw [readStrBody_lit f c _ h34 h92 (by omega), hih]
                    rfl
                  · by_cases hbmp : c ≤ 65535
                    · have hesc : escapeChar c = 92 :: 117 :: hex4 c := by
                        simp only [escapeChar]
                        rw [if_neg h34, if_neg h92, if_neg h8, if_neg h12,
                          if_neg h10, if_neg h13, if_neg h9, if_neg hpr, if_pos hbmp]
                      rw [hesc]
                      simp only [List.cons_append, List.nil_append]
                      rw [readStrBody_u_single f _ _ c
                        (readHex4_hex4 c _ (by omega)) (by omega), hih]
                      rfl
                    · have hesc : escapeChar c =
                          (92 :: 117 :: hex4 (55296 + (c - 65536) / 1024)) ++
                          (92 :: 117 :: hex4 (56320 + (c - 65536) % 1024)) := by
                        simp only [escapeChar]
                        rw [if_neg h34, if_neg h92, if_neg h8, if_neg h12,
                          if_neg h10, if_neg h13, if_neg h9, if_neg hpr, if_neg hbmp]
                      have hhi : (c - 65536) / 1024 ≤ 1023 := by omega
                      have hlo : (c - 65536) % 1024 ≤ 1023 := by
                        have := Nat.mod_lt (c - 65536) (show 0 < 1024 by omega)
                        omega
                      rw [hesc]
                      simp only [List.cons_append, List.append_assoc, List.nil_append]
                      rw [readStrBody_u_pair f _ _ _
                        (55296 + (c - 65536) / 1024) (56320 + (c - 65536) % 1024)
                        (readHex4_hex4 _ _ (by omega)) (by omega)
                        (readHex4_hex4 _ _ (by omega)) (by omega), hih]
                      have hval : 65536 + (55296 + (c - 65536) / 1024 - 55296) * 1024 +
                          (56320 + (c - 65536) % 1024 - 56320) = c := by omega
                      simp [hval]
                      omega

/-- Escaping never shortens a string. -/
theorem escLen (s : List Nat) : s.length ≤ (s.flatMap escapeChar).length := by
  induction s with
  | nil => simp
  | cons c t ih =>
    have h1 : 1 ≤ (escapeChar c).length := by
      simp only [escapeChar]
      repeat' split
      all_goals simp [hex4]
    simp only [List.flatMap_cons, List.length_append, List.length_cons]
    omega

/-- The first character of a serialized integer. -/
theorem intDump_head (n : Int) :
    ∃ d t, intDump n = d :: t ∧ (d = 45 ∨ (48 ≤ d ∧ d ≤ 57)) := by
  by_cases hneg : n < 0
  · exact ⟨45, natDump n.natAbs, by simp [intDump, hneg], Or.inl rfl⟩
  · obtain ⟨d, t, he, h1, h2⟩ := natDump_head_digit n.natAbs
    exact ⟨d, t, by simp [intDump, hneg, he], Or.inr ⟨h1, h2⟩⟩

/-- The atom reader recovers any serialized atomic value, with a rest
that does not begin with a digit. -/
theorem readAtom_dumpVal (v : JVal) (rest : List Nat)
    (hv : jvalCanon v = true)
    (hrest : ∀ c ∈ rest.head?, isDigitCp c = false) :
    readAtom (dumpVal v ++ rest) = some (v, rest) := by
  cases v with
  | jnull =>
    show readAtom (110 :: ([117, 108, 108] ++ rest)) = _
    simp [readAtom, expectChars]
  | jbool b =>
    cases b with
    | true =>
      show readAtom (116 :: ([114, 117, 101] ++ rest)) = _
      simp [readAtom, expectChars]
    | false =>
      show readAtom (102 :: ([97, 108, 115, 101] ++ rest)) = _
      simp [readAtom, expectChars]
  | jnum n =>
    obtain ⟨d, t, he, hd⟩ := intDump_head n
    have hne : d ≠ 34 ∧ d ≠ 110 ∧ d ≠ 116 ∧ d ≠ 102 := by
      rcases hd with h | h <;> omega
    have hnum : (decide (d = 45) || isDigitCp d) = true := by
      rcases hd with h | h
      · simp [h]
      · simp [isDigitCp]
        omega
    rw [show dumpVal (.jnum n) ++ rest = d :: (t ++ rest) by simp [dumpVal, he]]
    simp only [readAtom]
    rw [if_neg hne.1, if_neg hne.2.1, if_neg hne.2.2.1, if_neg hne.2.2.2, if_pos hnum]
    rw [show d :: (t ++ rest) = intDump n ++ rest by simp [he]]
    rw [readInt_intDump n rest hrest]
    rfl
  | jstr s =>
    have hs : scalarStr s = true := hv
    have hshape : dumpVal (.jstr s) ++ rest = 34 :: (s.flatMap escapeChar ++ 34 :: rest) := by
      simp [dumpVal, dumpStr]
    rw [hshape]
    simp only [readAtom, if_pos rfl]
    rw [readStrBody_escape s hs _ rest (by
      have := escLen s
      simp only [List.length_append, List.length_cons]
      omega)]
    rfl

/-- Skipping whitespace stops at the first non-whitespace character. -/
theorem skipWs_cons (h : Nat) (r : List Nat) (hw : isWs h = false) :
    skipWs (h :: r) = h :: r := by
  simp [skipWs, List.dropWhile_cons, hw]

/-- A serialized atomic value starts with a known, non-structural,
non-whitespace character. -/
theorem dumpVal_head (v : JVal) : ∃ h r, dumpVal v = h :: r ∧
    isWs h = false ∧ h ≠ 123 := by
  cases v with
  | jnull => exact ⟨110, [117, 108, 108], rfl, by decide, by decide⟩
  | jbool b =>
    cases b with
    | true => exact ⟨116, [114, 117, 101], rfl, by decide, by decide⟩
    | false => exact ⟨102, [97, 108, 115, 101], rfl, by decide, by decide⟩
  | jnum n =>
    obtain ⟨d, t, he, hd⟩ := intDump_head n
    refine ⟨d, t, by simp [dumpVal, he], ?_, ?_⟩
    · simp [isWs]
      omega
    · omega
  | jstr s => exact ⟨34, s.flatMap escapeChar ++ [34], by simp [dumpVal, dumpStr], by decide, by decide⟩

/-- Skipping whitespace in front of a serialized atom does nothing. -/
theorem skipWs_dumpVal (v : JVal) (rest : List Nat) :
    skipWs (dumpVal v ++ rest) = dumpVal v ++ rest := by
  obtain ⟨h, r, he, hw, _⟩ := dumpVal_head v
  rw [he, List.cons_append, skipWs_cons _ _ hw]

/-- The member reader recovers one serialized member. -/
theorem readMember_dumpMember (k : List Nat) (v : JVal) (rest : List Nat)
    (hk : scalarStr k = true) (hv : jvalCanon v = true)
    (hrest : ∀ c ∈ rest.head?, isDigitCp c = false) :
    readMember (dumpMember (k, v) ++ rest) = some ((k, v), rest) := by
  have hshape : dumpMember (k, v) ++ rest =
      34 :: (k.flatMap escapeChar ++ 34 :: (58 :: (dumpVal v ++ rest))) := by
    simp [dumpMember, dumpStr]
  have hbody := readStrBody_escape k hk
    ((k.flatMap escapeChar ++ 34 :: (58 :: (dumpVal v ++ rest))).length + 1)
    (58 :: (dumpVal v ++ rest))
    (by
      have := escLen k
      simp only [List.length_append, List.length_cons]
      omega)
  simp only [readMember, hshape, skipWs_cons 34 _ (by decide)]
  simp only [hbody, skipWs_cons 58 _ (by decide), if_pos rfl]
  rw [skipWs_dumpVal, readAtom_dumpVal v rest hv hrest]
  rfl

/-- Serialized members are nonempty strings. -/
theorem dumpMember_ne_nil (m : List Nat × JVal) : dumpMember m ≠ [] := by
  simp [dumpMember, dumpStr]

/-- A serialized member list for `m :: t` starts with a quote. -/
theorem dumpMembers_shape (m : List Nat × JVal) (t : Members) :
    ∃ x, dumpMembers (m :: t) = 34 :: x := by
  cases t with
  | nil => exact ⟨m.1.flatMap escapeChar ++ 34 :: (58 :: dumpVal m.2), by
      simp [dumpMembers, dumpMember, dumpStr]⟩
  | cons m2 t2 => exact ⟨m.1.flatMap escapeChar ++ 34 ::
      (58 :: (dumpVal m.2 ++ 44 :: dumpMembers (m2 :: t2))), by
      simp [dumpMembers, dumpMember, dumpStr]⟩

/-- Each member contributes at least one character. -/
theorem dumpMembers_length (ms : Members) :
    ms.length ≤ (dumpMembers ms).length := by
  induction ms with
  | nil => simp [dumpMembers]
  | cons m t ih =>
    cases t with
    | nil => simp [dumpMembers, dumpMember, dumpStr]
    | cons m2 t2 =>
      have : dumpMembers (m :: m2 :: t2) = dumpMember m ++ 44 :: dumpMembers (m2 :: t2) :=
        rfl
      rw [this]
      simp only [List.length_append, List.length_cons]
      simp at ih ⊢
      omega

/-- The member-list reader recovers a serialized nonempty member list up
to its closing brace, with fuel at least the member count. -/
theorem readMembers_dumpMembers : ∀ (ms : Members), ms ≠ [] →
    (∀ kv ∈ ms, scalarStr kv.1 = true ∧ jvalCanon kv.2 = true) →
    ∀ (f : Nat) (rest : List Nat), ms.length ≤ f →
      readMembers f (dumpMembers ms ++ 125 :: rest) = some (ms, rest) := by
  intro ms
  induction ms with
  | nil => intro h; exact absurd rfl h
  | cons m t ih =>
    intro _ hcanon f rest hf
    obtain ⟨k, v⟩ := m
    have hm := hcanon (k, v) (by simp)
    cases f with
    | zero => simp at hf
    | succ f =>
    cases t with
    | nil =>
      have hshape : dumpMembers [(k, v)] ++ 125 :: rest =
          dumpMember (k, v) ++ 125 :: rest := rfl
      rw [hshape]
      simp only [readMembers]
      rw [readMember_dumpMember k v (125 :: rest) hm.1 hm.2 (by simp [isDigitCp])]
      simp only [skipWs_cons 125 _ (by decide)]
      simp
    | cons m2 t2 =>
      have hshape : dumpMembers ((k, v) :: m2 :: t2) ++ 125 :: rest =
          dumpMember (k, v) ++ 44 :: (dumpMembers (m2 :: t2) ++ 125 :: rest) := by
        simp [dumpMembers]
      rw [hshape]
      simp only [readMembers]
      rw [readMember_dumpMember k v (44 :: (dumpMembers (m2 :: t2) ++ 125 :: rest))
        hm.1 hm.2 (by simp [isDigitCp])]
      simp only [skipWs_cons 44 _ (by decide), if_pos rfl]
      rw [ih (by simp) (fun kv hkv => hcanon kv (by simp [hkv])) f rest (by
        simp at hf ⊢
        omega)]
      rfl

/-- `json.loads` inverts `json.dumps` on canonical documents of the
fragment: the serializer-parser round trip at the heart of token
verification. -/
theorem loads_dumps (j : Json) (hc : jsonCanon j = true) : loads (dumps j) = some j := by
  cases j with
  | atom v =>
    have hv : jvalCanon v = true := hc
    obtain ⟨h, r, he, hw, h123⟩ := dumpVal_head v
    have hatom : readAtom (dumpVal v) = some (v, []) := by
      simpa using readAtom_dumpVal v [] hv (by simp)
    have hrv : readValue (skipWs (dumps (.atom v))) = some (.atom v, []) := by
      have hskip : skipWs (dumps (.atom v)) = dumps (.atom v) := by
        show skipWs (dumpVal v) = dumpVal v
        rw [he, skipWs_cons _ _ hw]
      rw [hskip]
      show readValue (dumpVal v) = some (.atom v, [])
      rw [he]
      simp only [readValue, if_neg h123]
      rw [← he, hatom]
      rfl
    simp only [loads]
    rw [hrv]
    simp [skipWs]
  | obj ms =>
    cases ms with
    | nil => rfl
    | cons m t =>
      have hmc : membersCanon (m :: t) = true := hc
      rw [membersCanon, Bool.and_eq_true] at hmc
      have hms : ∀ kv ∈ m :: t, scalarStr kv.1 = true ∧ jvalCanon kv.2 = true := by
        intro kv hkv
        have := List.all_eq_true.mp hmc.1 kv hkv
        simpa using this
      have hnd : (dictKeys (m :: t)).Nodup := of_decide_eq_true hmc.2
      obtain ⟨x, hx⟩ := dumpMembers_shape m t
      have hshape : dumps (.obj (m :: t)) = 123 :: (dumpMembers (m :: t) ++ 125 :: []) := by
        simp [dumps]
      have hr1 : skipWs (dumpMembers (m :: t) ++ 125 :: []) =
          dumpMembers (m :: t) ++ 125 :: [] := by
        rw [hx, List.cons_append, skipWs_cons _ _ (by decide)]
      have hhead : (dumpMembers (m :: t) ++ 125 :: []).head? ≠ some 125 := by
        rw [hx]
        simp
      have hfuel : (m :: t).length ≤ (dumpMembers (m :: t) ++ 125 :: []).length + 1 := by
        have h1 := dumpMembers_length (m :: t)
        simp only [List.length_cons] at h1 ⊢
        simp only [List.length_append, List.length_cons, List.length_nil]
        omega
      have hrm := readMembers_dumpMembers (m :: t) (by simp) hms
        ((dumpMembers (m :: t) ++ 125 :: []).length + 1) [] hfuel
      have hrv : readValue (skipWs (dumps (.obj (m :: t)))) = some (.obj (m :: t), []) := by
        rw [hshape, skipWs_cons _ _ (by decide)]
        simp only [readValue, if_pos rfl, hr1, if_neg hhead]
        rw [hrm]
        simp [buildDict_nodup (m :: t) hnd]
      simp only [loads]
      rw [hrv]
      simp [skipWs]

/-- `hex4` emits ASCII characters. -/
theorem hex4_ascii (n : Nat) : ∀ c ∈ hex4 n, c < 128 := by
  intro c hc
  have key : ∀ m : Nat, m < 16 → (if m < 10 then 48 + m else 87 + m) < 128 := by
    intro m hm
    split <;> omega
  simp only [hex4, List.mem_cons, List.not_mem_nil, or_false] at hc
  rcases hc with h | h | h | h <;> (rw [h]; exact key _ (by omega))

/-- `escapeChar` emits ASCII characters. -/
theorem escapeChar_ascii (c : Nat) : ∀ x ∈ escapeChar c, x < 128 := by
  simp only [escapeChar]
  repeat' split
  · intro x hx; simp at hx; omega
  · intro x hx; simp at hx; omega
  · intro x hx; simp at hx; omega
  · intro x hx; simp at hx; omega
  · intro x hx; simp at hx; omega
  · intro x hx; simp at hx; omega
  · intro x hx; simp at hx; omega
  · intro x hx; simp at hx; omega
  · intro x hx
    simp only [List.mem_cons] at hx
    rcases hx with h | h | h
    · omega
    · omega
    · exact hex4_ascii _ x h
  · intro x hx
    rcases List.mem_append.mp hx with h | h <;>
    · simp only [List.mem_cons] at h
      rcases h with h1 | h1 | h1
      · omega
      · omega
      · exact hex4_ascii _ x h1

/-- `natDump` emits ASCII characters. -/
theorem natDump_ascii (n : Nat) : ∀ c ∈ natDump n, c < 128 := by
  intro c hc
  have := natDumpAux_digits (n + 1) n (by omega) c hc
  omega

/-- `dumpVal` emits ASCII characters. -/
theorem dumpVal_ascii (v : JVal) : ∀ c ∈ dumpVal v, c < 128 := by
  intro c hc
  cases v with
  | jnull => simp [dumpVal] at hc; omega
  | jbool b => cases b <;> (simp [dumpVal] at hc; omega)
  | jnum n =>
    simp only [dumpVal, intDump] at hc
    split at hc
    · simp at hc
      rcases hc with h | h
      · omega
      · exact natDump_ascii _ c h
    · exact natDump_ascii _ c hc
  | jstr s =>
    simp only [dumpVal, dumpStr] at hc
    rcases List.mem_append.mp hc with h | h
    · rcases List.mem_cons.mp h with h1 | h1
      · omega
      · obtain ⟨y, _, hy⟩ := List.mem_flatMap.mp h1
        exact escapeChar_ascii y c hy
    · simp at h
      omega

/-- `dumpMembers` emits ASCII characters. -/
theorem dumpMembers_ascii (ms : Members) : ∀ c ∈ dumpMembers ms, c < 128 := by
  induction ms with
  | nil => simp [dumpMembers]
  | cons m t ih =>
    intro c hc
    have hmem : ∀ c ∈ dumpMember m, c < 128 := by
      intro c hc
      simp only [dumpMember, List.mem_append, List.mem_cons] at hc
      rcases hc with h | h | h
      · exact dumpVal_ascii (.jstr m.1) c (by simpa [dumpVal] using h)
      · omega
      · exact dumpVal_ascii m.2 c h
    cases t with
    | nil => exact hmem c hc
    | cons m2 t2 =>
      have : dumpMembers (m :: m2 :: t2) = dumpMember m ++ 44 :: dumpMembers (m2 :: t2) := rfl
      rw [this] at hc
      simp only [List.mem_append, List.mem_cons] at hc
      rcases hc with h | h | h
      · exact hmem c h
      · omega
      · exact ih c h

/-- Everything `dumps` emits is ASCII (`ensure_ascii=True`). -/
theorem dumps_ascii (j : Json) : ∀ c ∈ dumps j, c < 128 := by
  cases j with
  | atom v => exact dumpVal_ascii v
  | obj ms =>
    intro c hc
    simp only [dumps] at hc
    rcases List.mem_append.mp hc with h | h
    · rcases List.mem_cons.mp h with h1 | h1
      · omega
      · exact dumpMembers_ascii ms c h1
    · simp at h
      omega

/-- UTF-8 encoding is the identity on ASCII strings. -/
theorem utf8Encode_ascii (s : List Nat) (h : ∀ c ∈ s, c < 128) :
    utf8Encode s = s := by
  induction s with
  | nil => rfl
  | cons c t ih =>
    have hc : c < 128 := h c (by simp)
    simp only [utf8Encode, List.flatMap_cons, if_pos hc]
    rw [show t.flatMap _ = utf8Encode t from rfl, ih (fun x hx => h x (by simp [hx]))]
    rfl

/-- Strict UTF-8 decoding is the identity on ASCII byte lists. -/
theorem utf8Decode_ascii (bs : List Nat) (h : ∀ b ∈ bs, b < 128) :
    utf8Decode bs = some bs := by
  suffices hgen : ∀ (f : Nat) (l : List Nat), l.length < f → (∀ b ∈ l, b < 128) →
      utf8DecodeFuel f l = some l by
    exact hgen (bs.length + 1) bs (by omega) h
  intro f
  induction f with
  | zero => intro l hl; omega
  | succ f ih =>
    intro l hl hb
    cases l with
    | nil => rfl
    | cons b r =>
      have hb0 : b < 128 := hb b (by simp)
      simp only [utf8DecodeFuel, if_pos hb0]
      rw [ih r (by simpa using hl) (fun x hx => hb x (by simp [hx]))]
      rfl

/-- Splitting a separator-free string yields one part. -/
theorem splitOn1_no_sep (sep : Nat) (b : List Nat) (h : ∀ c ∈ b, c ≠ sep) :
    splitOn1 sep b = [b] := by
  induction b with
  | nil => rfl
  | cons c t ih =>
    have hc : c ≠ sep := h c (by simp)
    simp only [splitOn1, if_neg hc, ih (fun x hx => h x (by simp [hx]))]

/-- Splitting on the single separator between two clean parts yields
exactly those parts. -/
theorem splitOn1_two (sep : Nat) (a b : List Nat)
    (ha : ∀ c ∈ a, c ≠ sep) (hb : ∀ c ∈ b, c ≠ sep) :
    splitOn1 sep (a ++ sep :: b) = [a, b] := by
  induction a with
  | nil =>
    simp [splitOn1, splitOn1_no_sep sep b hb]
  | cons c t ih =>
    have hc : c ≠ sep := ha c (by simp)
    simp [splitOn1, if_neg hc, ih (fun x hx => ha x (by simp [hx]))]

/-- Alphabet table facts, by enumeration: each index reads back to
itself, and no alphabet character is `=` (61) or `.` (46). -/
theorem b64_alpha_facts : ∀ m, m < 64 → b64Val (b64Alphabet.getD m 65) = some m ∧
    b64Alphabet.getD m 65 ≠ 61 ∧ b64Alphabet.getD m 65 ≠ 46 ∧
    isB64Char (b64Alphabet.getD m 65) = true := by decide

/-- The sextet value of an encoded character. -/
theorem b64Val_b64Char (n : Nat) : b64Val (b64Char n) = some (n % 64) :=
  (b64_alpha_facts (n % 64) (Nat.mod_lt n (by omega))).1

/-- Encoded characters are never padding. -/
theorem b64Char_ne61 (n : Nat) : b64Char n ≠ 61 :=
  (b64_alpha_facts (n % 64) (Nat.mod_lt n (by omega))).2.1

/-- Encoded characters are never the token separator. -/
theorem b64Char_ne46 (n : Nat) : b64Char n ≠ 46 :=
  (b64_alpha_facts (n % 64) (Nat.mod_lt n (by omega))).2.2.1

/-- Encoded characters are in the decoder's accepted alphabet. -/
theorem b64Char_isB64 (n : Nat) : isB64Char (b64Char n) = true :=
  (b64_alpha_facts (n % 64) (Nat.mod_lt n (by omega))).2.2.2

/-- Every character of an encoded segment is an alphabet character and in
particular neither `=` nor `.`. -/
theorem base64url_encode_chars : ∀ (bs : List Nat), ∀ c ∈ base64url_encode bs,
    isB64Char c = true ∧ c ≠ 61 ∧ c ≠ 46 := by
  intro bs
  induction bs using base64url_encode.induct with
  | case1 a b c t ih =>
    intro x hx
    simp only [base64url_encode, List.mem_cons] at hx
    rcases hx with h | h | h | h | h
    · exact h ▸ ⟨b64Char_isB64 _, b64Char_ne61 _, b64Char_ne46 _⟩
    · exact h ▸ ⟨b64Char_isB64 _, b64Char_ne61 _, b64Char_ne46 _⟩
    · exact h ▸ ⟨b64Char_isB64 _, b64Char_ne61 _, b64Char_ne46 _⟩
    · exact h ▸ ⟨b64Char_isB64 _, b64Char_ne61 _, b64Char_ne46 _⟩
    · exact ih x h
  | case2 a b =>
    intro x hx
    simp only [base64url_encode, List.mem_cons, List.not_mem_nil, or_false] at hx
    rcases hx with h | h | h <;>
      exact h ▸ ⟨b64Char_isB64 _, b64Char_ne61 _, b64Char_ne46 _⟩
  | case3 a =>
    intro x hx
    simp only [base64url_encode, List.mem_cons, List.not_mem_nil, or_false] at hx
    rcases hx with h | h <;>
      exact h ▸ ⟨b64Char_isB64 _, b64Char_ne61 _, b64Char_ne46 _⟩
  | case4 =>
    intro x hx
    simp [base64url_encode] at hx

/-- Quad decoding inverts encoding once the source-computed padding is
appended. -/
theorem b64DecodeQuads_encode : ∀ (bs : List Nat), (∀ x ∈ bs, x < 256) →
    b64DecodeQuads (base64url_encode bs ++
      List.replicate ((4 - (base64url_encode bs).length % 4) % 4) 61) = some bs := by
  intro bs
  induction bs using base64url_encode.induct with
  | case1 a b c t ih =>
    intro hb
    have ha : a < 256 := hb a (by simp)
    have hbb : b < 256 := hb b (by simp)
    have hcc : c < 256 := hb c (by simp)
    rw [show base64url_encode (a :: b :: c :: t) =
      b64Char (a / 4) :: b64Char (a % 4 * 16 + b / 16) ::
      b64Char (b % 16 * 4 + c / 64) :: b64Char (c % 64) :: base64url_encode t from rfl]
    rw [show (b64Char (a / 4) :: b64Char (a % 4 * 16 + b / 16) ::
      b64Char (b % 16 * 4 + c / 64) :: b64Char (c % 64) :: base64url_encode t).length =
      (base64url_encode t).length + 4 from by simp]
    rw [show (4 - ((base64url_encode t).length + 4) % 4) % 4 =
      (4 - (base64url_encode t).length % 4) % 4 from by omega]
    simp only [List.cons_append, b64DecodeQuads, b64Val_b64Char,
      if_neg (b64Char_ne61 (b % 16 * 4 + c / 64)), if_neg (b64Char_ne61 (c % 64)),
      List.append_eq]
    rw [ih (fun x hx => hb x (by simp [hx]))]
    have e1 : a / 4 % 64 * 4 + (a % 4 * 16 + b / 16) % 64 / 16 = a := by omega
    have e2 : (a % 4 * 16 + b / 16) % 64 % 16 * 16 +
        (b % 16 * 4 + c / 64) % 64 / 4 = b := by omega
    have e3 : (b % 16 * 4 + c / 64) % 64 % 4 * 64 + c % 64 % 64 = c := by omega
    simp only [Option.map_some, e1, e2, e3]
    rfl
  | case2 a b =>
    intro hb
    have ha : a < 256 := hb a (by simp)
    have hbb : b < 256 := hb b (by simp)
    rw [show base64url_encode [a, b] =
      [b64Char (a / 4), b64Char (a % 4 * 16 + b / 16), b64Char (b % 16 * 4)] from rfl]
    rw [show ([b64Char (a / 4), b64Char (a % 4 * 16 + b / 16),
      b64Char (b % 16 * 4)] : List Nat).length = 3 from by simp]
    rw [show (4 - 3 % 4) % 4 = 1 from by omega]
    simp only [List.replicate, List.cons_append, List.nil_append, b64DecodeQuads,
      b64Val_b64Char, if_neg (b64Char_ne61 (b % 16 * 4)), if_pos rfl]
    have e1 : a / 4 % 64 * 4 + (a % 4 * 16 + b / 16) % 64 / 16 = a := by omega
    have e2 : (a % 4 * 16 + b / 16) % 64 % 16 * 16 + b % 16 * 4 % 64 / 4 = b := by omega
    simp only [e1, e2]
    simp
  | case3 a =>
    intro hb
    have ha : a < 256 := hb a (by simp)
    rw [show base64url_encode [a] = [b64Char (a / 4), b64Char (a % 4 * 16)] from rfl]
    rw [show ([b64Char (a / 4), b64Char (a % 4 * 16)] : List Nat).length = 2 from by simp]
    rw [show (4 - 2 % 4) % 4 = 2 from by omega]
    simp only [List.replicate, List.cons_append, List.nil_append, b64DecodeQuads,
      b64Val_b64Char, if_pos rfl]
    have e1 : a / 4 % 64 * 4 + a % 4 * 16 % 64 / 16 = a := by omega
    simp only [e1]
    simp
  | case4 =>
    intro _
    rfl

/-- `base64url_decode_bytes` inverts `base64url_encode` on byte lists:
the alphabet filter keeps every encoded character and every padding
character, and the re-added padding completes the final quad. -/
theorem base64url_decode_encode (bs : List Nat) (hb : ∀ x ∈ bs, x < 256) :
    base64url_decode_bytes (base64url_encode bs) = some bs := by
  have hfilter : (base64url_encode bs ++
      List.replicate ((4 - (base64url_encode bs).length % 4) % 4) 61).filter
        (fun c => isB64Char c || c = 61) =
      base64url_encode bs ++
      List.replicate ((4 - (base64url_encode bs).length % 4) % 4) 61 := by
    apply List.filter_eq_self.mpr
    intro a hma
    rcases List.mem_append.mp hma with h | h
    · simp [(base64url_encode_chars bs a h).1]
    · have := List.eq_of_mem_replicate h
      simp [this]
  show urlsafe_b64decode _ = some bs
  rw [urlsafe_b64decode, hfilter]
  exact b64DecodeQuads_encode bs hb

/-- SHA-256 digests are byte lists. -/
theorem sha256_bytes (msg : List Nat) : ∀ x ∈ sha256 msg, x < 256 := by
  intro x hx
  simp only [sha256] at hx
  obtain ⟨w, _, hw⟩ := List.mem_flatMap.mp hx
  simp only [List.mem_cons, List.not_mem_nil, or_false] at hw
  rcases hw with h | h | h | h <;>
    · subst h
      exact Nat.mod_lt _ (by omega)

/-- HMAC-SHA-256 digests are byte lists. -/
theorem hmacSha256_bytes (key msg : List Nat) : ∀ x ∈ hmacSha256 key msg, x < 256 :=
  sha256_bytes _

/-- Two keys with the same zero-padded key block produce identical
digests for every message. -/
theorem hmacSha256_congr_block (k1 k2 msg : List Nat)
    (h : hmacBlockKey k1 = hmacBlockKey k2) :
    hmacSha256 k1 msg = hmacSha256 k2 msg := by
  simp only [hmacSha256, h]

/-- Master reduction: verifying a token built by signing ASCII body text
with secret `s`, under a verification secret `s'` whose digest over the
body agrees (in particular `s' = s`), passes the split, decode, and
signature stages and reduces to the parse/issuer/expiry stage. -/
theorem verify_signed_token (s s' : List Nat) (now : Int) (body : List Nat)
    (h2 : s' ≠ [])
    (hsig : hmacSha256 s' (utf8Encode body) = hmacSha256 s (utf8Encode body))
    (hA : ∀ c ∈ body, c < 128) :
    verify_session_token s' now (signed_token_of s body) =
      checkParsed now (loads body) := by
  have hb : utf8Encode body = body := utf8Encode_ascii body hA
  have htok_ne : signed_token_of s body ≠ [] := by
    simp [signed_token_of]
  have hsplit : splitOn1 46 (signed_token_of s body) =
      [base64url_encode (utf8Encode body),
       base64url_encode (hmacSha256 s (utf8Encode body))] := by
    apply splitOn1_two
    · intro c hc
      exact (base64url_encode_chars _ c hc).2.2
    · intro c hc
      exact (base64url_encode_chars _ c hc).2.2
  have hd1 : base64url_decode_bytes (base64url_encode (utf8Encode body)) =
      some (utf8Encode body) := by
    apply base64url_decode_encode
    rw [hb]
    intro x hx
    have := hA x hx
    omega
  have hd2 : utf8Decode (utf8Encode body) = some body := by
    rw [hb]
    exact utf8Decode_ascii body hA
  have hd3 : base64url_decode_bytes (base64url_encode (hmacSha256 s (utf8Encode body))) =
      some (hmacSha256 s (utf8Encode body)) :=
    base64url_decode_encode _ (hmacSha256_bytes s _)
  simp only [verify_session_token]
  rw [if_neg (not_or.mpr ⟨htok_ne, h2⟩), hsplit]
  simp only [hd1, hd2, hd3, Option.bind_some, Option.some_bind, Option.bind_eq_bind]
  simp only [verifyDecoded, hsig, compare_digest, beq_self_eq_true, not_true,
    if_neg (by simp : ¬False)]


/-- The post-parse stage accepts a dict with the pinned issuer and a
nonzero integer expiry that has not passed. -/
theorem checkParsed_accept (now : Int) (d : Members) (e : Int)
    (hiss : dictGet d issKey = some (.jstr SESSION_ISSUER))
    (hexp : dictGet d expKey = some (.jnum e)) (h0 : e ≠ 0) (hle : now ≤ e) :
    checkParsed now (some (.obj d)) = .ok (some (.obj d)) := by
  simp only [checkParsed, hiss, hexp]
  rw [if_neg (not_not_intro rfl)]
  simp [jvalFalsy, h0, not_lt.mpr hle]

/-- The post-parse stage rejects any issuer other than the constant. -/
theorem checkParsed_bad_issuer (now : Int) (d : Members)
    (hiss : dictGet d issKey ≠ some (.jstr SESSION_ISSUER)) :
    checkParsed now (some (.obj d)) = .ok none := by
  simp [checkParsed, hiss]

/-- The post-parse stage rejects a missing expiry. -/
theorem checkParsed_no_exp (now : Int) (d : Members)
    (hiss : dictGet d issKey = some (.jstr SESSION_ISSUER))
    (hexp : dictGet d expKey = none) :
    checkParsed now (some (.obj d)) = .ok none := by
  simp only [checkParsed, hiss, hexp]
  rw [if_neg (not_not_intro rfl)]

/-- The post-parse stage rejects a falsy expiry value (`0`, `False`,
`''`, `null`). -/
theorem checkParsed_falsy_exp (now : Int) (d : Members) (v : JVal)
    (hiss : dictGet d issKey = some (.jstr SESSION_ISSUER))
    (hexp : dictGet d expKey = some v) (hf : jvalFalsy v = true) :
    checkParsed now (some (.obj d)) = .ok none := by
  simp only [checkParsed, hiss, hexp]
  rw [if_neg (not_not_intro rfl)]
  simp [hf]

/-- The post-parse stage rejects an integer expiry before the clock. -/
theorem checkParsed_expired (now : Int) (d : Members) (e : Int)
    (hiss : dictGet d issKey = some (.jstr SESSION_ISSUER))
    (hexp : dictGet d expKey = some (.jnum e)) (hlt : e < now) :
    checkParsed now (some (.obj d)) = .ok none := by
  simp only [checkParsed, hiss, hexp]
  rw [if_neg (not_not_intro rfl)]
  by_cases h0 : e = 0
  · simp [jvalFalsy, h0]
  · simp [jvalFalsy, h0, hlt]

/-- With a nonempty secret, token creation signs the serialized merged
payload. -/
theorem create_session_token_eq (secret : List Nat) (maxAgeMs nowMs : Int)
    (payload : Members) (h : secret ≠ []) :
    create_session_token secret maxAgeMs nowMs payload =
      .ok (signed_token_of secret
        (dumps (.obj (session_payload payload (nowMs + maxAgeMs))))) := by
  simp [create_session_token, h]

/-- The merged payload of a canonical payload is canonical. -/
theorem session_payload_canon (p : Members) (e : Int)
    (hc : membersCanon p = true) :
    membersCanon (session_payload p e) = true := by
  rw [membersCanon, Bool.and_eq_true] at hc
  rw [membersCanon, Bool.and_eq_true]
  constructor
  · apply List.all_eq_true.mpr
    intro kv hkv
    rcases mem_dictSet hkv with h1 | h1
    · rcases mem_dictSet h1 with h2 | h2
      · exact List.all_eq_true.mp hc.1 kv h2
      · subst h2
        decide
    · subst h1
      show (scalarStr expKey && jvalCanon (JVal.jnum e)) = true
      rw [show jvalCanon (JVal.jnum e) = true from rfl,
        show scalarStr expKey = true from by decide]
      rfl
  · exact decide_eq_true
      (dictKeys_dictSet_nodup _ _ (dictKeys_dictSet_nodup _ _ (of_decide_eq_true hc.2)))

/-- The merged payload carries the pinned issuer. -/
theorem session_payload_get_iss (p : Members) (e : Int) :
    dictGet (session_payload p e) issKey = some (.jstr SESSION_ISSUER) := by
  rw [session_payload, dictGet_dictSet_ne _ _ _ _ (by decide), dictGet_dictSet_self]

/-- The merged payload carries the computed expiry. -/
theorem session_payload_get_exp (p : Members) (e : Int) :
    dictGet (session_payload p e) expKey = some (.jnum e) :=
  dictGet_dictSet_self _ _ _

/-- The merged payload agrees with the caller's payload on every other
key. -/
theorem session_payload_get_other (p : Members) (e : Int) (k : List Nat)
    (h1 : k ≠ issKey) (h2 : k ≠ expKey) :
    dictGet (session_payload p e) k = dictGet p k := by
  rw [session_payload, dictGet_dictSet_ne _ _ _ _ h2, dictGet_dictSet_ne _ _ _ _ h1]

/-- Whenever verification returns a session, it is a JSON object that
contains the pinned issuer key; in particular it is a nonempty dict, so
the decorator's truthiness test always passes on it. -/
theorem verify_some_shape (secret : List Nat) (now : Int) (token : List Nat)
    (j : Json) (h : verify_session_token secret now token = .ok (some j)) :
    ∃ d, j = .obj d ∧ dictGet d issKey = some (.jstr SESSION_ISSUER) := by
  simp only [verify_session_token] at h
  split at h
  · simp at h
  split at h
  case _ body_part sig_part hsp =>
    rcases hdb : base64url_decode_bytes body_part with _ | bodyBytes
    · rw [hdb] at h
      simp at h
    rw [hdb] at h
    simp only [Option.pure_def, Option.bind_eq_bind, Option.some_bind] at h
    rcases hdu : utf8Decode bodyBytes with _ | body
    · rw [hdu] at h
      simp at h
    rw [hdu] at h
    simp only [Option.some_bind] at h
    rcases hds : base64url_decode_bytes sig_part with _ | signature
    · rw [hds] at h
      simp at h
    rw [hds] at h
    simp only [Option.some_bind] at h
    · simp only [verifyDecoded] at h
      split at h
      · simp at h
      rcases hl : loads body with _ | parsed
      · rw [hl] at h
        simp [checkParsed] at h
      rw [hl] at h
      rcases parsed with v | d
      · simp [checkParsed] at h
      simp only [checkParsed] at h
      split at h
      · simp at h
      case _ hiss =>
        rcases hexp : dictGet d expKey with _ | ev
        · rw [hexp] at h
          simp at h
        rw [hexp] at h
        rcases ev with _ | b | e | s2
        · simp [jvalFalsy] at h
        · rcases b with _ | _
          · simp [jvalFalsy] at h
          · simp only [jvalFalsy] at h
            rw [if_neg (by simp)] at h
            split at h
            · simp at h
            · exact ⟨d, by simpa using h.symm, not_not.mp hiss⟩
        · by_cases he0 : e = 0
          · simp [jvalFalsy, he0] at h
          · simp only [jvalFalsy] at h
            rw [if_neg (by simp [he0])] at h
            split at h
            · simp at h
            · exact ⟨d, by simpa using h.symm, not_not.mp hiss⟩
        · by_cases hs0 : s2.isEmpty = true
          · simp [jvalFalsy, hs0] at h
          · simp only [jvalFalsy] at h
            rw [if_neg (by simp [hs0])] at h
            simp at h
  · simp at h

/-- C6: with the signing secret unset or empty (both falsy, modelled as
the empty byte string), `create_session_token` raises the configuration
`RuntimeError` rather than silently issuing a token, while
`verify_session_token` returns `None` for every token instead of
raising. -/
theorem C6_secret_absence :
    (∀ (payload : Members) (maxAgeMs nowMs : Int),
      create_session_token [] maxAgeMs nowMs payload = .error .runtimeError) ∧
    (∀ (nowMs : Int) (token : List Nat),
      verify_session_token [] nowMs token = .ok none) := by
  constructor
  · intro payload m n
    simp [create_session_token]
  · intro n t
    simp [verify_session_token]

/-- C7: for every request, `require_auth` invokes the wrapped handler on
exactly the claims record produced by `get_session_from_request` when one
is present, returns the 401 response without invoking the handler exactly
when it yields `None`, and propagates an uncaught exception unchanged. -/
theorem C7_require_auth_guard {α : Type} (fn : Json → α) (secret : List Nat)
    (nowMs : Int) (cookie : List Nat) :
    match get_session_from_request secret nowMs cookie with
    | .ok (some claims) =>
        require_auth fn secret nowMs cookie = .ok (.handled (fn claims))
    | .ok none => require_auth fn secret nowMs cookie = .ok .unauthenticated
    | .error e => require_auth fn secret nowMs cookie = .error e := by
  rcases hg : get_session_from_request secret nowMs cookie with e | s
  · simp only
    simp [require_auth, hg]
  · rcases s with _ | c
    · simp only
      simp [require_auth, hg]
    · simp only
      obtain ⟨d, rfl, hiss⟩ := verify_some_shape secret nowMs cookie c hg
      have hne : d ≠ [] := dictGet_ne_nil hiss
      have hfalse : jsonFalsy (.obj d) = false := by
        cases d with
        | nil => exact absurd rfl hne
        | cons a t => rfl
      simp [require_auth, hg, hfalse]

/-- C8: `is_admin` is false for an absent session, false when the email
is missing or falsy, false whenever the allow-list is empty, and
otherwise reports exactly case-insensitive membership of the session's
email in the allow-list. -/
theorem C8_admin_gating (adminEmails : List (List Nat)) :
    (is_admin adminEmails none = .ok false) ∧
    (∀ d : Members, dictGet d emailKey = none →
      is_admin adminEmails (some (.obj d)) = .ok false) ∧
    (∀ (d : Members) (v : JVal), dictGet d emailKey = some v →
      jvalFalsy v = true → is_admin adminEmails (some (.obj d)) = .ok false) ∧
    (∀ d : Members, is_admin [] (some (.obj d)) = .ok false) ∧
    (∀ (d : Members) (email : List Nat),
      dictGet d emailKey = some (.jstr email) → email ≠ [] → adminEmails ≠ [] →
      is_admin adminEmails (some (.obj d)) =
        .ok (decide (pyLower email ∈ adminEmails.map pyLower))) := by
  refine ⟨rfl, ?_, ?_, ?_, ?_⟩
  · intro d hget
    cases d with
    | nil => rfl
    | cons kv t =>
      simp only [is_admin, jsonFalsy]
      rw [if_neg (by simp), hget]
  · intro d v hget hv
    have hne : d ≠ [] := dictGet_ne_nil hget
    have hfalse : jsonFalsy (.obj d) = false := by
      cases d with
      | nil => exact absurd rfl hne
      | cons a t => rfl
    simp only [is_admin, hfalse]
    rw [if_neg (by simp), hget]
    simp [hv]
  · intro d
    cases d with
    | nil => rfl
    | cons kv t =>
      simp only [is_admin, jsonFalsy]
      rw [if_neg (by simp)]
      rcases hget : dictGet (kv :: t) emailKey with _ | v
      · rfl
      · split <;> simp
  · intro d email hget hmail hae
    have hne : d ≠ [] := dictGet_ne_nil hget
    have hfalse : jsonFalsy (.obj d) = false := by
      cases d with
      | nil => exact absurd rfl hne
      | cons a t => rfl
    simp only [is_admin, hfalse]
    rw [if_neg (by simp), hget]
    simp [jvalFalsy, hmail, hae]

/-- C8 witness: the spec's example instance — allow-list containing
`a@x.com`, session email `A@X.com` — yields true. -/
theorem C8_admin_gating_witness :
    is_admin [[97, 64, 120, 46, 99, 111, 109]]
      (some (.obj [([101, 109, 97, 105, 108],
        JVal.jstr [65, 64, 88, 46, 99, 111, 109])])) = .ok true := by
  have := (C8_admin_gating [[97, 64, 120, 46, 99, 111, 109]]).2.2.2.2
    [([101, 109, 97, 105, 108], JVal.jstr [65, 64, 88, 46, 99, 111, 109])]
    [65, 64, 88, 46, 99, 111, 109] (by decide) (by decide) (by decide)
  simpa using this

/-- C1: round trip.  For every canonical payload, nonempty secret,
positive TTL, nonnegative issuance clock, and verification clock before
`issuanceTime + TTL`, the issued token verifies to the merged payload:
it agrees with the caller's payload on every key other than `iss`/`exp`
(so on subject, email, name, and picture), carries the pinned issuer
`logintemplate`, and carries `exp = issuanceTime + TTL` — even when the
caller's payload had its own `iss` or `exp`, which issuance overwrites. -/
theorem C1_roundtrip (payload : Members) (secret : List Nat)
    (maxAgeMs nowMs now2 : Int)
    (hsec : secret ≠ []) (httl : 0 < maxAgeMs) (hnow : 0 ≤ nowMs)
    (hclk : now2 < nowMs + maxAgeMs) (hcanon : membersCanon payload = true) :
    create_session_token secret maxAgeMs nowMs payload =
      .ok (signed_token_of secret
        (dumps (.obj (session_payload payload (nowMs + maxAgeMs))))) ∧
    verify_session_token secret now2
      (signed_token_of secret
        (dumps (.obj (session_payload payload (nowMs + maxAgeMs))))) =
      .ok (some (.obj (session_payload payload (nowMs + maxAgeMs)))) ∧
    dictGet (session_payload payload (nowMs + maxAgeMs)) issKey =
      some (.jstr SESSION_ISSUER) ∧
    dictGet (session_payload payload (nowMs + maxAgeMs)) expKey =
      some (.jnum (nowMs + maxAgeMs)) ∧
    ∀ k, k ≠ issKey → k ≠ expKey →
      dictGet (session_payload payload (nowMs + maxAgeMs)) k = dictGet payload k := by
  refine ⟨create_session_token_eq _ _ _ _ hsec, ?_, session_payload_get_iss _ _,
    session_payload_get_exp _ _, fun k h1 h2 => session_payload_get_other _ _ k h1 h2⟩
  rw [verify_signed_token secret secret now2 _ hsec rfl (dumps_ascii _)]
  rw [loads_dumps _ (show jsonCanon (.obj (session_payload payload (nowMs + maxAgeMs))) = true
    from session_payload_canon payload _ hcanon)]
  exact checkParsed_accept now2 _ (nowMs + maxAgeMs) (session_payload_get_iss _ _)
    (session_payload_get_exp _ _) (by omega) (by omega)

/-- C1 witness: a concrete `sub`-only payload round-trips under secret
`k` with TTL 5, issued at 1 and verified at 2. -/
theorem C1_roundtrip_witness :
    verify_session_token [107] 2
      (signed_token_of [107]
        (dumps (.obj (session_payload [([115, 117, 98], JVal.jstr [117, 49])] (1 + 5))))) =
      .ok (some (.obj (session_payload [([115, 117, 98], JVal.jstr [117, 49])] (1 + 5)))) :=
  (C1_roundtrip [([115, 117, 98], JVal.jstr [117, 49])] [107] 5 1 2
    (by decide) (by decide) (by decide) (by decide) (by decide)).2.1

/-- C3: issuer pinning.  A payload correctly signed with the real secret
whose `iss` differs from `logintemplate` (or is absent) verifies to
`None` even though the signature matches. -/
theorem C3_issuer_pinning (d : Members) (secret : List Nat) (now : Int)
    (hsec : secret ≠ []) (hcanon : membersCanon d = true)
    (hiss : dictGet d issKey ≠ some (.jstr SESSION_ISSUER)) :
    verify_session_token secret now (signed_token_of secret (dumps (.obj d))) =
      .ok none := by
  rw [verify_signed_token secret secret now _ hsec rfl (dumps_ascii _),
    loads_dumps _ (show jsonCanon (.obj d) = true from hcanon)]
  exact checkParsed_bad_issuer now d hiss

/-- C3 witness: a signed payload with no issuer field at all is
rejected. -/
theorem C3_issuer_pinning_witness :
    verify_session_token [107] 0
      (signed_token_of [107]
        (dumps (.obj [([115, 117, 98], JVal.jstr [117, 49])]))) = .ok none :=
  C3_issuer_pinning [([115, 117, 98], JVal.jstr [117, 49])] [107] 0
    (by decide) (by decide) (by decide)

/-- C4: expiry rule.  On a correctly signed, issuer-valid payload,
verification returns `None` when `exp` is absent, falsy (including
exactly 0), or an integer before the clock; an integer `exp` at or after
the clock (and nonzero) is not rejected. -/
theorem C4_expiry (d : Members) (secret : List Nat) (now : Int)
    (hsec : secret ≠ []) (hcanon : membersCanon d = true)
    (hiss : dictGet d issKey = some (.jstr SESSION_ISSUER)) :
    (dictGet d expKey = none →
      verify_session_token secret now (signed_token_of secret (dumps (.obj d))) =
        .ok none) ∧
    (∀ v, dictGet d expKey = some v → jvalFalsy v = true →
      verify_session_token secret now (signed_token_of secret (dumps (.obj d))) =
        .ok none) ∧
    (∀ e : Int, dictGet d expKey = some (.jnum e) → e < now →
      verify_session_token secret now (signed_token_of secret (dumps (.obj d))) =
        .ok none) ∧
    (∀ e : Int, dictGet d expKey = some (.jnum e) → now ≤ e → e ≠ 0 →
      verify_session_token secret now (signed_token_of secret (dumps (.obj d))) =
        .ok (some (.obj d))) := by
  have hred : verify_session_token secret now
      (signed_token_of secret (dumps (.obj d))) = checkParsed now (some (.obj d)) := by
    rw [verify_signed_token secret secret now _ hsec rfl (dumps_ascii _),
      loads_dumps _ (show jsonCanon (.obj d) = true from hcanon)]
  refine ⟨?_, ?_, ?_, ?_⟩
  · intro hexp
    rw [hred]
    exact checkParsed_no_exp now d hiss hexp
  · intro v hexp hv
    rw [hred]
    exact checkParsed_falsy_exp now d v hiss hexp hv
  · intro e hexp hlt
    rw [hred]
    exact checkParsed_expired now d e hiss hexp hlt
  · intro e hexp hle h0
    rw [hred]
    exact checkParsed_accept now d e hiss hexp h0 hle

/-- C4 witness: a signed, issuer-valid payload whose `exp = 3` is checked
at clock 10 and rejected as expired. -/
theorem C4_expiry_witness :
    verify_session_token [107] 10
      (signed_token_of [107]
        (dumps (.obj [([105, 115, 115], JVal.jstr SESSION_ISSUER),
                      ([101, 120, 112], JVal.jnum 3)]))) = .ok none :=
  (C4_expiry [([105, 115, 115], JVal.jstr SESSION_ISSUER),
      ([101, 120, 112], JVal.jnum 3)] [107] 10
    (by decide) (by decide) (by decide)).2.2.1 3 (by decide) (by decide)

/-- C9 (implicit): no identity validation at verification.  Any signed
JSON-object payload with the pinned issuer and an unexpired integer
expiry is returned as a valid session, with no constraint on subject,
email, name, or picture — they may all be absent. -/
theorem C9_no_identity_validation (d : Members) (secret : List Nat)
    (now e : Int) (hsec : secret ≠ []) (hcanon : membersCanon d = true)
    (hiss : dictGet d issKey = some (.jstr SESSION_ISSUER))
    (hexp : dictGet d expKey = some (.jnum e))
    (hnow : 0 ≤ now) (hfut : now < e) :
    verify_session_token secret now (signed_token_of secret (dumps (.obj d))) =
      .ok (some (.obj d)) := by
  rw [verify_signed_token secret secret now _ hsec rfl (dumps_ascii _),
    loads_dumps _ (show jsonCanon (.obj d) = true from hcanon)]
  exact checkParsed_accept now d e hiss hexp (by omega) (by omega)

/-- C9 witness: a signed payload carrying only `iss` and `exp`, with no
identity fields at all, is accepted as a session. -/
theorem C9_no_identity_validation_witness :
    verify_session_token [107] 5
      (signed_token_of [107]
        (dumps (.obj [([105, 115, 115], JVal.jstr SESSION_ISSUER),
                      ([101, 120, 112], JVal.jnum 99)]))) =
      .ok (some (.obj [([105, 115, 115], JVal.jstr SESSION_ISSUER),
                       ([101, 120, 112], JVal.jnum 99)])) :=
  C9_no_identity_validation [([105, 115, 115], JVal.jstr SESSION_ISSUER),
      ([101, 120, 112], JVal.jnum 99)] [107] 5 99
    (by decide) (by decide) (by decide) (by decide) (by decide) (by decide)

/-- Count of a character absent from an encoded segment is zero. -/
theorem count46_encode_zero (bs : List Nat) :
    (base64url_encode bs).count 46 = 0 := by
  apply List.count_eq_zero.mpr
  intro hm
  exact (base64url_encode_chars bs 46 hm).2.2 rfl

/-- C10 (implicit): wire-format invariant.  Every issued token contains
no `=` padding character, contains exactly one `.`, splits into exactly
the two encoded segments, and both segments decode successfully in
`verify_session_token`'s `base64url_decode_bytes`. -/
theorem C10_wire_format (payload : Members) (secret : List Nat)
    (maxAgeMs nowMs : Int) (tok : List Nat)
    (h : create_session_token secret maxAgeMs nowMs payload = .ok tok) :
    61 ∉ tok ∧ tok.count 46 = 1 ∧
    splitOn1 46 tok =
      [base64url_encode (utf8Encode (dumps (.obj (session_payload payload (nowMs + maxAgeMs))))),
       base64url_encode (hmacSha256 secret
         (utf8Encode (dumps (.obj (session_payload payload (nowMs + maxAgeMs))))))] ∧
    base64url_decode_bytes (base64url_encode
        (utf8Encode (dumps (.obj (session_payload payload (nowMs + maxAgeMs)))))) =
      some (utf8Encode (dumps (.obj (session_payload payload (nowMs + maxAgeMs))))) ∧
    base64url_decode_bytes (base64url_encode (hmacSha256 secret
        (utf8Encode (dumps (.obj (session_payload payload (nowMs + maxAgeMs))))))) =
      some (hmacSha256 secret
        (utf8Encode (dumps (.obj (session_payload payload (nowMs + maxAgeMs)))))) := by
  have hsec : secret ≠ [] := by
    intro he
    rw [he] at h
    simp [create_session_token] at h
  rw [create_session_token_eq _ _ _ _ hsec] at h
  obtain rfl : tok = signed_token_of secret
      (dumps (.obj (session_payload payload (nowMs + maxAgeMs)))) := by
    simpa using h.symm
  have hascii : ∀ c ∈ dumps (.obj (session_payload payload (nowMs + maxAgeMs))), c < 128 :=
    dumps_ascii _
  have hbytes : ∀ x ∈ utf8Encode (dumps (.obj (session_payload payload (nowMs + maxAgeMs)))),
      x < 256 := by
    rw [utf8Encode_ascii _ hascii]
    intro x hx
    have := hascii x hx
    omega
  refine ⟨?_, ?_, ?_, base64url_decode_encode _ hbytes,
    base64url_decode_encode _ (hmacSha256_bytes _ _)⟩
  · intro hm
    simp only [signed_token_of, List.mem_append, List.mem_cons] at hm
    rcases hm with hm | hm | hm
    · exact (base64url_encode_chars _ 61 hm).2.1 rfl
    · omega
    · exact (base64url_encode_chars _ 61 hm).2.1 rfl
  · simp only [signed_token_of, List.count_append, List.count_cons,
      count46_encode_zero]
    simp
  · exact splitOn1_two 46 _ _
      (fun c hc => (base64url_encode_chars _ c hc).2.2)
      (fun c hc => (base64url_encode_chars _ c hc).2.2)

/-- C10 witness: wire-format facts for a concrete token issued for an
empty payload under secret `k` with TTL 7 at clock 0. -/
theorem C10_wire_format_witness :
    61 ∉ signed_token_of [107] (dumps (.obj (session_payload [] (0 + 7)))) ∧
    (signed_token_of [107] (dumps (.obj (session_payload [] (0 + 7))))).count 46 = 1 ∧
    splitOn1 46 (signed_token_of [107] (dumps (.obj (session_payload [] (0 + 7))))) =
      [base64url_encode (utf8Encode (dumps (.obj (session_payload [] (0 + 7))))),
       base64url_encode (hmacSha256 [107]
         (utf8Encode (dumps (.obj (session_payload [] (0 + 7))))))] ∧
    base64url_decode_bytes (base64url_encode
        (utf8Encode (dumps (.obj (session_payload [] (0 + 7)))))) =
      some (utf8Encode (dumps (.obj (session_payload [] (0 + 7))))) ∧
    base64url_decode_bytes (base64url_encode (hmacSha256 [107]
        (utf8Encode (dumps (.obj (session_payload [] (0 + 7))))))) =
      some (hmacSha256 [107] (utf8Encode (dumps (.obj (session_payload [] (0 + 7)))))) :=
  C10_wire_format [] [107] 7 0 _ rfl

/-- C2: the claim that `verify_session_token` never raises fails on the
code.  The decoder's narrow `except json.JSONDecodeError` leaves
`parsed.get('iss')` unprotected: a payload of `123` — valid JSON, not an
object — correctly signed with the verification secret makes
`verify_session_token` raise `AttributeError` where the spec requires
`None`. -/
theorem C2_nonobject_payload_raises :
    verify_session_token [107] 0
      (signed_token_of [107] (dumps (.atom (.jnum 123)))) =
      .error .attributeError := by
  rw [verify_signed_token [107] [107] 0 _ (by decide) rfl (dumps_ascii _),
    loads_dumps _ (by decide)]
  rfl

/-- C2 companion: a correctly signed object payload whose truthy `exp`
is a string makes the comparison `parsed['exp'] < now` raise
`TypeError`. -/
theorem C2_string_exp_raises :
    verify_session_token [107] 0
      (signed_token_of [107]
        (dumps (.obj [([105, 115, 115], JVal.jstr SESSION_ISSUER),
                      ([101, 120, 112], JVal.jstr [122])]))) =
      .error .typeError := by
  rw [verify_signed_token [107] [107] 0 _ (by decide) rfl (dumps_ascii _),
    loads_dumps _ (by decide)]
  rfl

/-- Master reduction, mismatch side: when the digest recomputed under the
verification secret differs from the token's signature, verification
stops at the comparison and returns `None`. -/
theorem verify_signed_token_badsig (s s' : List Nat) (now : Int) (body : List Nat)
    (h2 : s' ≠ [])
    (hsig : hmacSha256 s' (utf8Encode body) ≠ hmacSha256 s (utf8Encode body))
    (hA : ∀ c ∈ body, c < 128) :
    verify_session_token s' now (signed_token_of s body) = .ok none := by
  have hb : utf8Encode body = body := utf8Encode_ascii body hA
  have htok_ne : signed_token_of s body ≠ [] := by
    simp [signed_token_of]
  have hsplit : splitOn1 46 (signed_token_of s body) =
      [base64url_encode (utf8Encode body),
       base64url_encode (hmacSha256 s (utf8Encode body))] := by
    apply splitOn1_two
    · intro c hc
      exact (base64url_encode_chars _ c hc).2.2
    · intro c hc
      exact (base64url_encode_chars _ c hc).2.2
  have hd1 : base64url_decode_bytes (base64url_encode (utf8Encode body)) =
      some (utf8Encode body) := by
    apply base64url_decode_encode
    rw [hb]
    intro x hx
    have := hA x hx
    omega
  have hd2 : utf8Decode (utf8Encode body) = some body := by
    rw [hb]
    exact utf8Decode_ascii body hA
  have hd3 : base64url_decode_bytes (base64url_encode (hmacSha256 s (utf8Encode body))) =
      some (hmacSha256 s (utf8Encode body)) :=
    base64url_decode_encode _ (hmacSha256_bytes s _)
  simp only [verify_session_token]
  rw [if_neg (not_or.mpr ⟨htok_ne, h2⟩), hsplit]
  simp only [hd1, hd2, hd3, Option.bind_some, Option.some_bind, Option.bind_eq_bind]
  simp only [verifyDecoded, compare_digest]
  rw [if_pos (by simp [hsig])]

/-- C5 counterexample: wrong-key rejection fails as stated.  HMAC pads
keys with NUL bytes to its 64-byte block, so the distinct nonempty
secrets `a` (`[97]`) and `a\x00` (`[97, 0]`) sign identically: a token
issued under the first verifies successfully under the second. -/
theorem C5_wrong_key_counterexample :
    ([97] : List Nat) ≠ [97, 0] ∧
    create_session_token [97] 1000 0 [] =
      .ok (signed_token_of [97] (dumps (.obj (session_payload [] (0 + 1000))))) ∧
    verify_session_token [97, 0] 0
      (signed_token_of [97] (dumps (.obj (session_payload [] (0 + 1000))))) =
      .ok (some (.obj (session_payload [] (0 + 1000)))) := by
  refine ⟨by decide, create_session_token_eq _ _ _ _ (by decide), ?_⟩
  have hkey : hmacSha256 [97, 0]
      (utf8Encode (dumps (.obj (session_payload [] (0 + 1000))))) =
      hmacSha256 [97] (utf8Encode (dumps (.obj (session_payload [] (0 + 1000))))) :=
    hmacSha256_congr_block _ _ _ (by decide)
  rw [verify_signed_token [97] [97, 0] 0 _ (by decide) hkey (dumps_ascii _),
    loads_dumps _ (by decide)]
  exact checkParsed_accept 0 _ (0 + 1000) (session_payload_get_iss _ _)
    (session_payload_get_exp _ _) (by decide) (by decide)

/-- C5 (amended): verifying a token issued under `S1` with a nonempty
secret `S2` returns `None` whenever the HMAC-SHA-256 digest of the
token body under `S2` differs from the digest under `S1`; for `S1 ≠ S2`
the digests can coincide (NUL-padding of the HMAC key block), and then
verification succeeds, as the counterexample shows. -/
theorem C5_wrong_key_amended (payload : Members) (s1 s2 : List Nat)
    (maxAgeMs nowMs now2 : Int) (tok : List Nat)
    (h2 : s2 ≠ [])
    (hdiff : hmacSha256 s2
        (utf8Encode (dumps (.obj (session_payload payload (nowMs + maxAgeMs))))) ≠
      hmacSha256 s1
        (utf8Encode (dumps (.obj (session_payload payload (nowMs + maxAgeMs))))))
    (h : create_session_token s1 maxAgeMs nowMs payload = .ok tok) :
    verify_session_token s2 now2 tok = .ok none := by
  have hs1 : s1 ≠ [] := by
    intro he
    rw [he] at h
    simp [create_session_token] at h
  rw [create_session_token_eq _ _ _ _ hs1] at h
  obtain rfl : tok = signed_token_of s1
      (dumps (.obj (session_payload payload (nowMs + maxAgeMs)))) := by
    simpa using h.symm
  exact verify_signed_token_badsig s1 s2 now2 _ h2 hdiff (dumps_ascii _)

set_option maxRecDepth 1000000 in
/-- C5 (amended) witness: secrets `k` and `j` produce different digests
over the concrete issued body, so verification under the wrong secret
returns `None`. -/
theorem C5_wrong_key_amended_witness :
    verify_session_token [106] 0
      (signed_token_of [107] (dumps (.obj (session_payload [] (0 + 7))))) =
      .ok none :=
  C5_wrong_key_amended [] [107] [106] 7 0 0 _ (by decide) (by decide) rfl
